import Mathlib

/-!
Verification of the declaration-rendering backend (`src/bindgen/cdecl.rs`):
translation of Rust types into C/C++/C# declarations.  The Rust source is
embedded shallowly: the `Type` IR, the `CDeclarator`/`CDecl` intermediate
representation, the builder (`CDecl::build_type`, `CDecl::build_func`) and
the writer (`CDecl::write`, `write_func`, `write_field`, `write_type`).
-/

namespace Cdecl

/-- Target language selector (`bindgen::config::Language`): the C dialect,
the C++ dialect, and the C# ("managed") dialect of this fork. -/
inductive Language where
  | C : Language
  | Cxx : Language
  | CS : Language
deriving DecidableEq

/-- The type IR (`bindgen::ir::Type`) as consumed by `cdecl.rs`.
`Path` carries the pieces of `GenericPath` that `build_type` reads:
`export_name()` (a string), `generics()` (a list of types) and `ctype()`
(modelled from the spec: the optional declaration-kind tag, already rendered
to its text, e.g. "struct"; `DeclarationType::to_str` lives outside the
excerpt).  `Primitive` carries its rendered text (modelled from the spec:
`PrimitiveType::to_repr` lives outside the excerpt; it is an opaque
dialect-specific name, kept abstract as one string). -/
inductive Ty where
  | Path : String → List Ty → Option String → Ty
  | Primitive : String → Ty
  | ConstPtr : Ty → Ty
  | Ptr : Ty → Ty
  | Ref : Ty → Ty
  | MutRef : Ty → Ty
  | Arr : Ty → String → Ty
  | FuncPtr : Ty → List (Option String × Ty) → Ty

/-- A function signature (`bindgen::ir::Function`) as consumed by
`cdecl.rs`: its exported name (`f.path().name()`), its named arguments and
its return type. -/
structure Function where
  name : String
  args : List (String × Ty)
  ret : Ty

mutual
/-- One declarator operation (`enum CDeclarator` in `cdecl.rs`). -/
inductive CDeclarator where
  | Ptr : Bool → CDeclarator
  | Ref : CDeclarator
  | Arr : String → CDeclarator
  | Func : List (Option String × CDecl) → Bool → CDeclarator

/-- The intermediate declarator list (`struct CDecl` in `cdecl.rs`):
type qualifiers, base type name, generic arguments, declarator operations,
and the optional declaration-kind tag.  Field order matches the source. -/
inductive CDecl where
  | mk : String → String → List Ty → List CDeclarator → Option String → CDecl
end

/-- `CDecl::type_qualifers` (spelled as in the source). -/
def CDecl.type_qualifers : CDecl → String
  | ⟨q, _, _, _, _⟩ => q

/-- `CDecl::type_name`. -/
def CDecl.type_name : CDecl → String
  | ⟨_, n, _, _, _⟩ => n

/-- `CDecl::type_generic_args`. -/
def CDecl.type_generic_args : CDecl → List Ty
  | ⟨_, _, g, _, _⟩ => g

/-- `CDecl::declarators`. -/
def CDecl.declarators : CDecl → List CDeclarator
  | ⟨_, _, _, d, _⟩ => d

/-- `CDecl::type_ctype`. -/
def CDecl.type_ctype : CDecl → Option String
  | ⟨_, _, _, _, c⟩ => c

/-- `CDeclarator::is_ptr`: pointers, references and function declarators
count as pointer-like; arrays do not. -/
def CDeclarator.is_ptr : CDeclarator → Bool
  | .Ptr _ => true
  | .Ref => true
  | .Func _ _ => true
  | .Arr _ => false

/-- `CDecl::new()`: the empty declarator list. -/
def CDecl.new : CDecl :=
  ⟨"", "", [], [], none⟩

mutual
/-- `CDecl::build_type`: recursively walks the type from the outside in,
pushing declarator operations and recording the base type at the leaf.
The `assert!` calls of the source (firing when a second base-type name, a
second set of generic arguments, or a second `const` qualifier would be
attached) are modelled as `none` (a panic); `some` is a normal return. -/
def CDecl.build_type (s : CDecl) (t : Ty) (is_const : Bool) (lang : Language) :
    Option CDecl :=
  match t with
  | .Path name generics ctype =>
    let step1 : Option CDecl :=
      if is_const then
        if s.type_qualifers.length = 0 then
          some ⟨"const", s.type_name, s.type_generic_args, s.declarators, s.type_ctype⟩
        else
          none
      else
        some s
    match step1 with
    | none => none
    | some s1 =>
      if s1.type_name.length = 0 then
        if s1.type_generic_args.length = 0 then
          some ⟨s1.type_qualifers, name, generics, s1.declarators, ctype⟩
        else
          none
      else
        none
  | .Primitive p =>
    let step1 : Option CDecl :=
      if is_const then
        if s.type_qualifers.length = 0 then
          some ⟨"const", s.type_name, s.type_generic_args, s.declarators, s.type_ctype⟩
        else
          none
      else
        some s
    match step1 with
    | none => none
    | some s1 =>
      if s1.type_name.length = 0 then
        some ⟨s1.type_qualifers, p, s1.type_generic_args, s1.declarators, s1.type_ctype⟩
      else
        none
  | .ConstPtr t' =>
    CDecl.build_type
      ⟨s.type_qualifers, s.type_name, s.type_generic_args,
        s.declarators ++ [CDeclarator.Ptr is_const], s.type_ctype⟩
      t' true lang
  | .Ptr t' =>
    CDecl.build_type
      ⟨s.type_qualifers, s.type_name, s.type_generic_args,
        s.declarators ++ [CDeclarator.Ptr is_const], s.type_ctype⟩
      t' false lang
  | .Ref t' =>
    CDecl.build_type
      ⟨s.type_qualifers, s.type_name, s.type_generic_args,
        s.declarators ++ [CDeclarator.Ref], s.type_ctype⟩
      t' true lang
  | .MutRef t' =>
    CDecl.build_type
      ⟨s.type_qualifers, s.type_name, s.type_generic_args,
        s.declarators ++ [CDeclarator.Ref], s.type_ctype⟩
      t' false lang
  | .Arr t' len =>
    CDecl.build_type
      ⟨s.type_qualifers, s.type_name, s.type_generic_args,
        s.declarators ++ [CDeclarator.Arr len], s.type_ctype⟩
      t' is_const lang
  | .FuncPtr ret args =>
    match CDecl.build_args args lang with
    | none => none
    | some margs =>
      CDecl.build_type
        ⟨s.type_qualifers, s.type_name, s.type_generic_args,
          s.declarators ++ [CDeclarator.Ptr false, CDeclarator.Func margs false],
          s.type_ctype⟩
        ret false lang

/-- The argument list of `Type::FuncPtr` mapped through `CDecl::from_type`
(the `args.iter().map(...)` of the source); a panic in any element
propagates. -/
def CDecl.build_args (args : List (Option String × Ty)) (lang : Language) :
    Option (List (Option String × CDecl)) :=
  match args with
  | [] => some []
  | (name, t) :: rest =>
    match CDecl.build_type CDecl.new t false lang with
    | none => none
    | some c =>
      match CDecl.build_args rest lang with
      | none => none
      | some cs => some ((name, c) :: cs)
end

/-- `CDecl::from_type`. -/
def CDecl.from_type (t : Ty) (lang : Language) : Option CDecl :=
  CDecl.build_type CDecl.new t false lang

/-- `Function::args` mapped as in `CDecl::build_func`
(`(Some(arg_name.clone()), CDecl::from_type(arg_ty, lang))`). -/
def buildFuncArgs (args : List (String × Ty)) (lang : Language) :
    Option (List (Option String × CDecl)) :=
  match args with
  | [] => some []
  | (name, t) :: rest =>
    match CDecl.from_type t lang with
    | none => none
    | some c =>
      match buildFuncArgs rest lang with
      | none => none
      | some cs => some ((some name, c) :: cs)

/-- `CDecl::build_func`: push a `Func` declarator for the argument list,
then build the return type as the remaining chain. -/
def CDecl.build_func (s : CDecl) (f : Function) (layout_vertical : Bool)
    (lang : Language) : Option CDecl :=
  match buildFuncArgs f.args lang with
  | none => none
  | some margs =>
    CDecl.build_type
      ⟨s.type_qualifers, s.type_name, s.type_generic_args,
        s.declarators ++ [CDeclarator.Func margs layout_vertical], s.type_ctype⟩
      f.ret false lang

/-- `CDecl::from_func`. -/
def CDecl.from_func (f : Function) (layout_vertical : Bool) (lang : Language) :
    Option CDecl :=
  CDecl.build_func CDecl.new f layout_vertical lang

example :
    CDecl.from_type (Ty.Ptr (Ty.Primitive "int")) Language.C =
      some ⟨"", "int", [], [CDeclarator.Ptr false], none⟩ := by
  rfl

example :
    CDecl.from_type (Ty.ConstPtr (Ty.Primitive "int")) Language.C =
      some ⟨"const", "int", [], [CDeclarator.Ptr false], none⟩ := by
  rfl


mutual
/-- Structural size of a type tree (termination measure only). -/
def tySize : Ty → Nat
  | .Primitive _ => 1
  | .Path _ gs _ => 1 + gensW gs
  | .ConstPtr t => 1 + tySize t
  | .Ptr t => 1 + tySize t
  | .Ref t => 1 + tySize t
  | .MutRef t => 1 + tySize t
  | .Arr t _ => 1 + tySize t
  | .FuncPtr ret args => 3 + tySize ret + argsSz args

/-- Size of a generic-argument list (termination measure only). -/
def gensW : List Ty → Nat
  | [] => 0
  | g :: rest => 2 + tySize g + gensW rest

/-- Size of a function-pointer argument list (termination measure only). -/
def argsSz : List (Option String × Ty) → Nat
  | [] => 0
  | (_, t) :: rest => 3 + tySize t + argsSz rest
end

mutual
/-- Weight a type adds to a declarator list it is built into
(termination measure only). -/
def tyW : Ty → Nat
  | .Primitive _ => 0
  | .Path _ gs _ => gensW gs
  | .ConstPtr t => 1 + tyW t
  | .Ptr t => 1 + tyW t
  | .Ref t => 1 + tyW t
  | .MutRef t => 1 + tyW t
  | .Arr t _ => 1 + tyW t
  | .FuncPtr ret args => 2 + tyW ret + argsW args

/-- Weight of a function-pointer argument list (termination measure only). -/
def argsW : List (Option String × Ty) → Nat
  | [] => 0
  | (_, t) :: rest => 3 + tyW t + argsW rest
end

mutual
/-- Measure of a declarator operation (termination measure only). -/
def muD : CDeclarator → Nat
  | .Ptr _ => 1
  | .Ref => 1
  | .Arr _ => 1
  | .Func args _ => 1 + muArgs args

/-- Measure of a built argument list (termination measure only). -/
def muArgs : List (Option String × CDecl) → Nat
  | [] => 0
  | (_, c) :: rest => 1 + muC c + muArgs rest

/-- Measure of a declarator list value (termination measure only). -/
def muC : CDecl → Nat
  | ⟨_, _, gs, ds, _⟩ => 2 + gensW gs + muDs ds

/-- Measure of a list of declarator operations (termination measure only). -/
def muDs : List CDeclarator → Nat
  | [] => 0
  | d :: rest => muD d + muDs rest
end

mutual
theorem tyW_lt : ∀ t : Ty, tyW t < tySize t
  | .Primitive _ => by simp [tyW, tySize]
  | .Path _ gs _ => by simp [tyW, tySize]
  | .ConstPtr t => by have := tyW_lt t; simp only [tyW, tySize]; omega
  | .Ptr t => by have := tyW_lt t; simp only [tyW, tySize]; omega
  | .Ref t => by have := tyW_lt t; simp only [tyW, tySize]; omega
  | .MutRef t => by have := tyW_lt t; simp only [tyW, tySize]; omega
  | .Arr t _ => by have := tyW_lt t; simp only [tyW, tySize]; omega
  | .FuncPtr ret args => by
    have h1 := tyW_lt ret
    have h2 := argsW_le args
    simp only [tyW, tySize]
    omega

theorem argsW_le : ∀ args : List (Option String × Ty), argsW args ≤ argsSz args
  | [] => by simp [argsW, argsSz]
  | (_, t) :: rest => by
    have h1 := tyW_lt t
    have h2 := argsW_le rest
    simp only [argsW, argsSz]
    omega
end

theorem muDs_append (ds : List CDeclarator) (es : List CDeclarator) :
    muDs (ds ++ es) = muDs ds + muDs es := by
  induction ds with
  | nil => simp [muDs]
  | cons d rest ih =>
    simp only [List.cons_append, muDs]
    rw [show rest.append es = rest ++ es from rfl, ih]
    omega

theorem muC_new : muC CDecl.new = 2 := by
  simp [muC, CDecl.new, gensW, muDs]


mutual
theorem build_mu : ∀ (t : Ty) (s : CDecl) (b : Bool) (lang : Language) (out : CDecl),
    CDecl.build_type s t b lang = some out → muC out ≤ muC s + tyW t
  | .Path name gs ct => by
    intro s b lang out h
    obtain ⟨q, n, sgs, ds, c⟩ := s
    cases b with
    | false =>
      by_cases hn : n.length = 0
      · by_cases hg : sgs.length = 0
        · simp [CDecl.build_type, CDecl.type_qualifers, CDecl.type_name,
            CDecl.type_generic_args, CDecl.declarators, CDecl.type_ctype,
            hn, hg] at h
          subst h
          have hsgs : sgs = [] := List.length_eq_zero.mp hg
          subst hsgs
          simp [muC, tyW, gensW]
          omega
        · simp [CDecl.build_type, CDecl.type_qualifers, CDecl.type_name,
            CDecl.type_generic_args, CDecl.declarators, CDecl.type_ctype,
            hn, hg] at h
      · simp [CDecl.build_type, CDecl.type_qualifers, CDecl.type_name,
          CDecl.type_generic_args, CDecl.declarators, CDecl.type_ctype, hn] at h
    | true =>
      by_cases hq : q.length = 0
      · by_cases hn : n.length = 0
        · by_cases hg : sgs.length = 0
          · simp [CDecl.build_type, CDecl.type_qualifers, CDecl.type_name,
              CDecl.type_generic_args, CDecl.declarators, CDecl.type_ctype,
              hq, hn, hg] at h
            subst h
            have hsgs : sgs = [] := List.length_eq_zero.mp hg
            subst hsgs
            simp [muC, tyW, gensW]
            omega
          · simp [CDecl.build_type, CDecl.type_qualifers, CDecl.type_name,
              CDecl.type_generic_args, CDecl.declarators, CDecl.type_ctype,
              hq, hn, hg] at h
        · simp [CDecl.build_type, CDecl.type_qualifers, CDecl.type_name,
            CDecl.type_generic_args, CDecl.declarators, CDecl.type_ctype,
            hq, hn] at h
      · simp [CDecl.build_type, CDecl.type_qualifers, CDecl.type_name,
          CDecl.type_generic_args, CDecl.declarators, CDecl.type_ctype, hq] at h
  | .Primitive p => by
    intro s b lang out h
    obtain ⟨q, n, sgs, ds, c⟩ := s
    cases b with
    | false =>
      by_cases hn : n.length = 0
      · simp [CDecl.build_type, CDecl.type_qualifers, CDecl.type_name,
          CDecl.type_generic_args, CDecl.declarators, CDecl.type_ctype, hn] at h
        subst h
        simp [muC, tyW]
      · simp [CDecl.build_type, CDecl.type_qualifers, CDecl.type_name,
          CDecl.type_generic_args, CDecl.declarators, CDecl.type_ctype, hn] at h
    | true =>
      by_cases hq : q.length = 0
      · by_cases hn : n.length = 0
        · simp [CDecl.build_type, CDecl.type_qualifers, CDecl.type_name,
            CDecl.type_generic_args, CDecl.declarators, CDecl.type_ctype,
            hq, hn] at h
          subst h
          simp [muC, tyW]
        · simp [CDecl.build_type, CDecl.type_qualifers, CDecl.type_name,
            CDecl.type_generic_args, CDecl.declarators, CDecl.type_ctype,
            hq, hn] at h
      · simp [CDecl.build_type, CDecl.type_qualifers, CDecl.type_name,
          CDecl.type_generic_args, CDecl.declarators, CDecl.type_ctype, hq] at h
  | .ConstPtr t' => by
    intro s b lang out h
    obtain ⟨q, n, sgs, ds, c⟩ := s
    simp only [CDecl.build_type, CDecl.type_qualifers, CDecl.type_name,
      CDecl.type_generic_args, CDecl.declarators, CDecl.type_ctype] at h
    have ih := build_mu t' _ true lang out h
    simp only [muC, muDs_append, muDs, muD, tyW] at ih ⊢
    omega
  | .Ptr t' => by
    intro s b lang out h
    obtain ⟨q, n, sgs, ds, c⟩ := s
    simp only [CDecl.build_type, CDecl.type_qualifers, CDecl.type_name,
      CDecl.type_generic_args, CDecl.declarators, CDecl.type_ctype] at h
    have ih := build_mu t' _ false lang out h
    simp only [muC, muDs_append, muDs, muD, tyW] at ih ⊢
    omega
  | .Ref t' => by
    intro s b lang out h
    obtain ⟨q, n, sgs, ds, c⟩ := s
    simp only [CDecl.build_type, CDecl.type_qualifers, CDecl.type_name,
      CDecl.type_generic_args, CDecl.declarators, CDecl.type_ctype] at h
    have ih := build_mu t' _ true lang out h
    simp only [muC, muDs_append, muDs, muD, tyW] at ih ⊢
    omega
  | .MutRef t' => by
    intro s b lang out h
    obtain ⟨q, n, sgs, ds, c⟩ := s
    simp only [CDecl.build_type, CDecl.type_qualifers, CDecl.type_name,
      CDecl.type_generic_args, CDecl.declarators, CDecl.type_ctype] at h
    have ih := build_mu t' _ false lang out h
    simp only [muC, muDs_append, muDs, muD, tyW] at ih ⊢
    omega
  | .Arr t' len => by
    intro s b lang out h
    obtain ⟨q, n, sgs, ds, c⟩ := s
    simp only [CDecl.build_type, CDecl.type_qualifers, CDecl.type_name,
      CDecl.type_generic_args, CDecl.declarators, CDecl.type_ctype] at h
    have ih := build_mu t' _ b lang out h
    simp only [muC, muDs_append, muDs, muD, tyW] at ih ⊢
    omega
  | .FuncPtr ret args => by
    intro s b lang out h
    obtain ⟨q, n, sgs, ds, c⟩ := s
    simp only [CDecl.build_type, CDecl.type_qualifers, CDecl.type_name,
      CDecl.type_generic_args, CDecl.declarators, CDecl.type_ctype] at h
    split at h
    · exact absurd h (by simp)
    · next margs hargs =>
      have ih := build_mu ret _ false lang out h
      have iha := build_args_mu args lang margs hargs
      simp only [muC, muDs_append, muDs, muD, tyW] at ih ⊢
      omega

theorem build_args_mu : ∀ (args : List (Option String × Ty)) (lang : Language)
    (margs : List (Option String × CDecl)),
    CDecl.build_args args lang = some margs → muArgs margs ≤ argsW args
  | [] => by
    intro lang margs h
    simp only [CDecl.build_args, Option.some.injEq] at h
    subst h
    simp [muArgs, argsW]
  | (name, t) :: rest => by
    intro lang margs h
    simp only [CDecl.build_args] at h
    split at h
    · exact absurd h (by simp)
    · next c hc =>
      split at h
      · exact absurd h (by simp)
      · next cs hcs =>
        simp only [Option.some.injEq] at h
        subst h
        have ih1 := build_mu t CDecl.new false lang c hc
        have ih2 := build_args_mu rest lang cs hcs
        simp only [muArgs, argsW, muC_new] at ih1 ih2 ⊢
        omega
end

theorem muD_pos (d : CDeclarator) : 1 ≤ muD d := by
  cases d <;> simp [muD]

/-- A run of `n` spaces (alignment indentation of the output writer). -/
def spacesStr (n : Nat) : String :=
  String.mk (List.replicate n ' ')

/-- Modelled from the spec: the output sink tracks the current line/column
(`SourceWriter::line_length_for_align`, outside the excerpt).  `colStep col s`
is the column after appending `s` at column `col`: a newline resets it. -/
def colStep (col : Nat) (s : String) : Nat :=
  s.data.foldl (fun a c => if c = '\n' then 0 else a + 1) col

/-- One iteration of the reverse (left) declarator walk of `CDecl::write`:
pointers emit `*const `/`*`, references `&`, and an array or function
operation opens a grouping parenthesis iff the next operation of the
reverse walk is pointer-like. -/
def leftOne (d : CDeclarator) (next_is_pointer : Bool) : String :=
  match d with
  | .Ptr true => "*const "
  | .Ptr false => "*"
  | .Ref => "&"
  | .Arr _ => if next_is_pointer then "(" else ""
  | .Func _ _ => if next_is_pointer then "(" else ""

/-- The reverse (left) declarator walk of `CDecl::write` (the first
`while let` loop), applied to the already-reversed declarator list; the
peeked `next_is_pointer` is the head of the remainder. -/
def writeLeft : List CDeclarator → String
  | [] => ""
  | d :: rest =>
    leftOne d (((rest.head?).map CDeclarator.is_ptr).getD false) ++ writeLeft rest

mutual
/-- `CDecl::write`: emit the C# array attribute (when the sole declarator is
an array and the dialect is C#), the qualifier, the declaration-kind tag,
the base type name (with `[]` suffix in the C# array case), the generic
arguments, a separating space before the identifier, the left declarator
walk, the identifier, then the right declarator walk.  `col` is the column
at which this declaration starts. -/
def CDecl.write (c : CDecl) (ident : Option String) (void_prototype : Bool)
    (lang : Language) (col : Nat) : String :=
  let cs_array_sz : Option String :=
    if lang = Language.CS ∧ c.declarators.length = 1 then
      match c.declarators with
      | [CDeclarator.Arr constant] => some constant
      | _ => none
    else
      none
  let marshal : String :=
    match cs_array_sz with
    | some x => "[MarshalAs(UnmanagedType.ByValArray, SizeConst=" ++ x ++ ")] readonly "
    | none => ""
  let qual : String :=
    if c.type_qualifers.length ≠ 0 then c.type_qualifers ++ " " else ""
  let ctypeStr : String :=
    match c.type_ctype with
    | some ct => ct ++ " "
    | none => ""
  let nameStr : String :=
    if cs_array_sz.isSome then c.type_name ++ "[]" else c.type_name
  let s0 := marshal ++ qual ++ ctypeStr ++ nameStr
  let s1 := s0 ++
    (if c.type_generic_args.isEmpty then ""
     else "<" ++ writeGenerics c.type_generic_args true lang (colStep col (s0 ++ "<")) ++ ">")
  let s2 := s1 ++ (if ident.isSome then " " else "")
  let s3 := s2 ++ writeLeft c.declarators.reverse
  let s4 := s3 ++ (match ident with | some i => i | none => "")
  s4 ++ CDecl.writeRight c.declarators false void_prototype lang (colStep col s4)
termination_by muC c
decreasing_by
  · obtain ⟨q2, n2, gs2, ds2, ct2⟩ := c
    simp only [CDecl.type_generic_args, muC]
    omega
  · obtain ⟨q2, n2, gs2, ds2, ct2⟩ := c
    simp only [CDecl.declarators, muC]
    omega

/-- The forward (right) declarator walk of `CDecl::write` (the second
`while` loop): `last_was_pointer` is the loop state, updated to
`is_ptr` of the processed declarator at each step. -/
def CDecl.writeRight (ds : List CDeclarator) (last_was_pointer : Bool)
    (void_prototype : Bool) (lang : Language) (col : Nat) : String :=
  match ds with
  | [] => ""
  | d :: rest =>
    let piece := CDecl.rightOne d last_was_pointer void_prototype lang col
    piece ++ CDecl.writeRight rest d.is_ptr void_prototype lang (colStep col piece)
termination_by 1 + muDs ds
decreasing_by
  · simp only [muDs]
    omega
  · simp only [muDs]
    have := muD_pos d
    omega

/-- One iteration of the forward (right) declarator walk: arrays close the
grouping parenthesis after a pointer-like predecessor and emit `[len]`
(suppressed for C#); functions close the grouping parenthesis, then emit the
parenthesized argument list, with `void` for an empty list when
`void_prototype` is set, laid out vertically or horizontally. -/
def CDecl.rightOne (d : CDeclarator) (last_was_pointer : Bool)
    (void_prototype : Bool) (lang : Language) (col : Nat) : String :=
  match d with
  | .Ptr _ => ""
  | .Ref => ""
  | .Arr constant =>
    (if last_was_pointer then ")" else "") ++
      (if lang ≠ Language.CS then "[" ++ constant ++ "]" else "")
  | .Func args layout_vertical =>
    let sA := (if last_was_pointer then ")" else "") ++ "("
    let sB := sA ++ (if args.isEmpty && void_prototype then "void" else "")
    let colB := colStep col sB
    let inner :=
      if layout_vertical then
        CDecl.writeArgsV args true void_prototype lang colB colB
      else
        CDecl.writeArgsH args true void_prototype lang colB
    sB ++ inner ++ ")"
termination_by muD d
decreasing_by
  · simp only [muD]
    omega
  · simp only [muD]
    omega

/-- The vertical argument-list loop of `CDecl::write`: each argument after
the first is preceded by a comma, a line break and indentation to the
column where the opening parenthesis ended (`align`). -/
def CDecl.writeArgsV (args : List (Option String × CDecl)) (first : Bool)
    (void_prototype : Bool) (lang : Language) (align : Nat) (col : Nat) : String :=
  match args with
  | [] => ""
  | (arg_ident, arg_ty) :: rest =>
    let sep := if first then "" else "," ++ "\n" ++ spacesStr align
    let s := sep ++ CDecl.write arg_ty arg_ident void_prototype lang (colStep col sep)
    s ++ CDecl.writeArgsV rest false void_prototype lang align (colStep col s)
termination_by muArgs args
decreasing_by
  · simp only [muArgs]
    omega
  · simp only [muArgs]
    omega

/-- The horizontal argument-list loop of `CDecl::write`: arguments joined
by `", "`. -/
def CDecl.writeArgsH (args : List (Option String × CDecl)) (first : Bool)
    (void_prototype : Bool) (lang : Language) (col : Nat) : String :=
  match args with
  | [] => ""
  | (arg_ident, arg_ty) :: rest =>
    let sep := if first then "" else ", "
    let s := sep ++ CDecl.write arg_ty arg_ident void_prototype lang (colStep col sep)
    s ++ CDecl.writeArgsH rest false void_prototype lang (colStep col s)
termination_by muArgs args
decreasing_by
  · simp only [muArgs]
    omega
  · simp only [muArgs]
    omega

/-- Modelled from the spec: the generic-argument list is comma-joined and
each argument is recursively rendered with the same writer
(`SourceWriter::write_horizontal_source_list` and the `Source`
implementation of `Type`, which trampolines to `write_type`, live outside
the excerpt). -/
def writeGenerics (gens : List Ty) (first : Bool) (lang : Language) (col : Nat) :
    String :=
  match gens with
  | [] => ""
  | g :: rest =>
    let sep := if first then "" else ", "
    let rendered :=
      match hgc : CDecl.from_type g lang with
      | some gc => CDecl.write gc none false lang (colStep col sep)
      | none => ""
    let s := sep ++ rendered
    s ++ writeGenerics rest false lang (colStep col s)
termination_by 1 + gensW gens
decreasing_by
  · simp only [CDecl.from_type] at hgc
    have h1 := build_mu g CDecl.new false lang gc hgc
    have h2 := tyW_lt g
    simp only [muC_new, gensW] at h1 ⊢
    omega
  · simp only [gensW]
    omega
end

/-- `write_func`: render a function declaration, identifier = the
function's exported name. -/
def write_func (f : Function) (layout_vertical : Bool) (void_prototype : Bool)
    (lang : Language) : String :=
  match CDecl.from_func f layout_vertical lang with
  | some c => CDecl.write c (some f.name) void_prototype lang 0
  | none => ""

/-- `write_field`: render a field declaration. -/
def write_field (t : Ty) (ident : String) (lang : Language) : String :=
  match CDecl.from_type t lang with
  | some c => CDecl.write c (some ident) false lang 0
  | none => ""

/-- `write_type`: render a bare type usage. -/
def write_type (t : Ty) (lang : Language) : String :=
  match CDecl.from_type t lang with
  | some c => CDecl.write c none false lang 0
  | none => ""

example : write_field (Ty.Ptr (Ty.Primitive "int")) "x" Language.C = "int *x" := by
  simp [write_field, CDecl.from_type, CDecl.build_type, CDecl.new, CDecl.write,
    CDecl.writeRight, CDecl.rightOne, CDecl.writeArgsH, CDecl.writeArgsV,
    writeGenerics, writeLeft, leftOne, CDecl.type_qualifers, CDecl.type_name,
    CDecl.type_generic_args, CDecl.declarators, CDecl.type_ctype,
    CDeclarator.is_ptr, colStep, spacesStr]

/-- Array and function operations are the ones that may need grouping
parentheses. -/
def isArrOrFunc : CDeclarator → Bool
  | .Arr _ => true
  | .Func _ _ => true
  | .Ptr _ => false
  | .Ref => false

/-- The adjacency condition of the grouping rule: the declarator at
(forward) index `i` is an array or function operation and the immediately
more-outer operation — the next one in the reverse walk, i.e. index
`i - 1` — is pointer-like. -/
def groupedAt (ds : List CDeclarator) (i : Nat) : Bool :=
  ((ds[i]?.map isArrOrFunc).getD false) &&
    (match i with
     | 0 => false
     | j + 1 => (ds[j]?.map CDeclarator.is_ptr).getD false)

/-- The `last_was_pointer`/`next_is_pointer` flag for each declarator of a
forward-indexed list: `false` for index 0, `is_ptr` of the predecessor
otherwise (the initial flag is the head). -/
def prevPtrFlags (ds : List CDeclarator) : List Bool :=
  false :: ds.map CDeclarator.is_ptr

/-- Concatenation of a list of emitted pieces. -/
def strConcat : List String → String
  | [] => ""
  | s :: rest => s ++ strConcat rest

/-- The non-parenthesis part of a left-pass piece. -/
def leftCore : CDeclarator → String
  | .Ptr true => "*const "
  | .Ptr false => "*"
  | .Ref => "&"
  | .Arr _ => ""
  | .Func _ _ => ""

/-- The non-closing part of a right-pass piece, rendered at the column
just after any closing parenthesis. -/
def rightCore (d : CDeclarator) (void_prototype : Bool) (lang : Language)
    (col : Nat) : String :=
  match d with
  | .Ptr _ => ""
  | .Ref => ""
  | .Arr constant => if lang ≠ Language.CS then "[" ++ constant ++ "]" else ""
  | .Func args layout_vertical =>
    let sB := "(" ++ (if args.isEmpty && void_prototype then "void" else "")
    let colB := colStep col sB
    let inner :=
      if layout_vertical then
        CDecl.writeArgsV args true void_prototype lang colB colB
      else
        CDecl.writeArgsH args true void_prototype lang colB
    sB ++ inner ++ ")"

/-- The right pass over a list of (declarator, entry-flag) pairs. -/
def rightZip (pairs : List (CDeclarator × Bool)) (void_prototype : Bool)
    (lang : Language) (col : Nat) : String :=
  match pairs with
  | [] => ""
  | (d, f) :: rest =>
    let s := CDecl.rightOne d f void_prototype lang col
    s ++ rightZip rest void_prototype lang (colStep col s)

theorem colStep_append (col : Nat) (a b : String) :
    colStep col (a ++ b) = colStep (colStep col a) b := by
  simp only [colStep]
  rw [show (a ++ b).data = a.data ++ b.data from rfl]
  rw [List.foldl_append]

/-- The non-parenthesis text of the left-pass piece at forward index `i`. -/
def leftCoreAt (ds : List CDeclarator) (i : Nat) : String :=
  match ds[i]? with
  | some d => leftCore d
  | none => ""

/-- The left-pass pieces in emission order (reverse walk over forward
indices), with a grouping parenthesis exactly at the grouped positions. -/
def leftPieces (ds : List CDeclarator) : List String :=
  ((List.range ds.length).reverse).map
    (fun i => (if groupedAt ds i then "(" else "") ++ leftCoreAt ds i)

theorem leftOne_decomp (d : CDeclarator) (f : Bool) :
    leftOne d f = (if isArrOrFunc d && f then "(" else "") ++ leftCore d := by
  cases d with
  | Ptr b => cases b <;> cases f <;> simp [leftOne, leftCore, isArrOrFunc]
  | Ref => cases f <;> simp [leftOne, leftCore, isArrOrFunc]
  | Arr len => cases f <;> simp [leftOne, leftCore, isArrOrFunc]
  | Func args lv => cases f <;> simp [leftOne, leftCore, isArrOrFunc]

theorem writeRight_zip_eq : ∀ (ds : List CDeclarator) (lwp vp : Bool)
    (lang : Language) (col : Nat),
    CDecl.writeRight ds lwp vp lang col =
      rightZip (ds.zip (lwp :: ds.map CDeclarator.is_ptr)) vp lang col := by
  intro ds
  induction ds with
  | nil =>
    intro lwp vp lang col
    simp [CDecl.writeRight, rightZip]
  | cons d rest ih =>
    intro lwp vp lang col
    simp only [CDecl.writeRight, List.map_cons, List.zip_cons_cons, rightZip]
    rw [ih]
    rfl

theorem groupedAt_append_lt (ds : List CDeclarator) (d : CDeclarator) (i : Nat)
    (hi : i < ds.length) : groupedAt (ds ++ [d]) i = groupedAt ds i := by
  have h1 : (ds ++ [d])[i]? = ds[i]? := List.getElem?_append_left hi
  cases i with
  | zero => simp [groupedAt, h1]
  | succ j =>
    have h2 : (ds ++ [d])[j]? = ds[j]? := List.getElem?_append_left (by omega)
    simp [groupedAt, h1, h2]

theorem leftCoreAt_append_lt (ds : List CDeclarator) (d : CDeclarator) (i : Nat)
    (hi : i < ds.length) : leftCoreAt (ds ++ [d]) i = leftCoreAt ds i := by
  have h1 : (ds ++ [d])[i]? = ds[i]? := List.getElem?_append_left hi
  simp [leftCoreAt, h1]

theorem writeLeft_pieces : ∀ ds : List CDeclarator,
    writeLeft ds.reverse = strConcat (leftPieces ds) := by
  intro ds
  induction ds using List.reverseRecOn with
  | nil => simp [writeLeft, leftPieces, strConcat]
  | append_singleton ds' d ih =>
    rw [List.reverse_append]
    simp only [List.reverse_singleton, List.singleton_append]
    rw [show writeLeft (d :: ds'.reverse) =
        leftOne d (((ds'.reverse.head?).map CDeclarator.is_ptr).getD false) ++
          writeLeft ds'.reverse from rfl]
    rw [ih]
    have hpieces : leftPieces (ds' ++ [d]) =
        ((if groupedAt (ds' ++ [d]) ds'.length then "(" else "") ++
          leftCoreAt (ds' ++ [d]) ds'.length) :: leftPieces ds' := by
      simp only [leftPieces, List.length_append, List.length_singleton,
        List.range_succ, List.reverse_append, List.reverse_singleton,
        List.singleton_append, List.map_cons]
      congr 1
      apply List.map_congr_left
      intro i hi
      have hilt : i < ds'.length := by
        have := List.mem_reverse.mp hi
        exact List.mem_range.mp this
      rw [groupedAt_append_lt ds' d i hilt, leftCoreAt_append_lt ds' d i hilt]
    rw [hpieces]
    rw [show strConcat
        (((if groupedAt (ds' ++ [d]) ds'.length then "(" else "") ++
          leftCoreAt (ds' ++ [d]) ds'.length) :: leftPieces ds') =
        ((if groupedAt (ds' ++ [d]) ds'.length then "(" else "") ++
          leftCoreAt (ds' ++ [d]) ds'.length) ++ strConcat (leftPieces ds') from rfl]
    have hget : (ds' ++ [d])[ds'.length]? = some d := List.getElem?_concat_length ds' d
    have hcore : leftCoreAt (ds' ++ [d]) ds'.length = leftCore d := by
      simp [leftCoreAt, hget]
    have hflag : groupedAt (ds' ++ [d]) ds'.length =
        (isArrOrFunc d && ((ds'.reverse.head?).map CDeclarator.is_ptr).getD false) := by
      cases hds' : ds' with
      | nil =>
        subst hds'
        simp [groupedAt]
      | cons e rest =>
        rw [← hds']
        have hlen : ds'.length = (ds'.length - 1) + 1 := by
          rw [hds']
          simp
        have hprev : (ds' ++ [d])[ds'.length - 1]? = ds'[ds'.length - 1]? :=
          List.getElem?_append_left (by rw [hds']; simp)
        have hrev : ds'.reverse.head? = ds'[ds'.length - 1]? := by
          rw [List.head?_reverse, List.getLast?_eq_getElem?]
        rw [hlen]
        simp only [groupedAt, hprev, hrev]
        rw [← hlen, hget]
        simp
    rw [hcore, hflag, leftOne_decomp]

theorem zip_flags_get : ∀ (ds : List CDeclarator) (b : Bool) (i : Nat),
    (ds.zip (b :: ds.map CDeclarator.is_ptr))[i]? =
      ds[i]?.map (fun d =>
        (d, match i with
            | 0 => b
            | j + 1 => (ds[j]?.map CDeclarator.is_ptr).getD false)) := by
  intro ds
  induction ds with
  | nil => intro b i; simp
  | cons e rest ih =>
    intro b i
    cases i with
    | zero => simp
    | succ j =>
      simp only [List.map_cons, List.zip_cons_cons, List.getElem?_cons_succ]
      rw [ih (CDeclarator.is_ptr e) j]
      cases j with
      | zero => simp
      | succ k => simp

theorem colStep_empty (col : Nat) : colStep col "" = col := rfl

theorem rightOne_decomp (d : CDeclarator) (f vp : Bool) (lang : Language) (col : Nat) :
    CDecl.rightOne d f vp lang col =
      (if isArrOrFunc d && f then ")" else "") ++
        rightCore d vp lang (colStep col (if isArrOrFunc d && f then ")" else "")) := by
  cases d with
  | Ptr b => cases f <;> simp [CDecl.rightOne, rightCore, isArrOrFunc]
  | Ref => cases f <;> simp [CDecl.rightOne, rightCore, isArrOrFunc]
  | Arr len => cases f <;> simp [CDecl.rightOne, rightCore, isArrOrFunc]
  | Func args lv =>
    cases f with
    | false => simp [CDecl.rightOne, rightCore, isArrOrFunc, colStep_empty]
    | true =>
      simp only [CDecl.rightOne, rightCore, isArrOrFunc, Bool.and_true, if_pos]
      rfl

theorem rightOne_flag_irrelevant (d : CDeclarator) (f vp : Bool) (lang : Language)
    (col : Nat) (h : (isArrOrFunc d && f) = false) :
    CDecl.rightOne d f vp lang col = CDecl.rightOne d false vp lang col := by
  cases d with
  | Ptr b => simp [CDecl.rightOne]
  | Ref => simp [CDecl.rightOne]
  | Arr len =>
    simp only [isArrOrFunc, Bool.true_and] at h
    rw [h]
  | Func args lv =>
    simp only [isArrOrFunc, Bool.true_and] at h
    rw [h]

theorem rightZip_noFlags : ∀ (pairs : List (CDeclarator × Bool)) (vp : Bool)
    (lang : Language) (col : Nat),
    (∀ p ∈ pairs, (isArrOrFunc p.1 && p.2) = false) →
    rightZip pairs vp lang col =
      rightZip (pairs.map (fun p => (p.1, false))) vp lang col := by
  intro pairs
  induction pairs with
  | nil => intro vp lang col h; simp [rightZip]
  | cons p rest ih =>
    intro vp lang col h
    obtain ⟨d, f⟩ := p
    have hp := h (d, f) (by simp)
    simp only [rightZip, List.map_cons]
    rw [rightOne_flag_irrelevant d f vp lang col hp]
    rw [ih vp lang (colStep col (CDecl.rightOne d false vp lang col))
      (fun q hq => h q (by simp [hq]))]

theorem strConcat_count_zero (ch : Char) : ∀ l : List String,
    (∀ s ∈ l, s.data.count ch = 0) → (strConcat l).data.count ch = 0 := by
  intro l
  induction l with
  | nil => intro h; simp [strConcat]
  | cons s rest ih =>
    intro h
    rw [show (strConcat (s :: rest)).data = s.data ++ (strConcat rest).data from rfl]
    rw [List.count_append]
    rw [h s (by simp), ih (fun q hq => h q (by simp [hq]))]

theorem leftCore_no_paren (d : CDeclarator) : (leftCore d).data.count '(' = 0 := by
  cases d with
  | Ptr b => cases b <;> decide
  | Ref => decide
  | Arr len => rfl
  | Func args lv => rfl

/-- C1: in every declarator list written by the writer, an array or function
operation whose next operation in the reverse walk is pointer-like gets a
grouping parenthesis opened in the reverse left pass (`leftPieces` opens
`"("` exactly at the `groupedAt` positions) and closed in the forward right
pass (each right-pass piece starts with `")"` exactly at the `groupedAt`
positions); and when no such adjacency exists, no grouping parenthesis is
emitted at all: the left pass contains no `'('` and the right pass coincides
with a run that never closes a grouping parenthesis. -/
theorem c1_parenthesization (ds : List CDeclarator) (vp : Bool) (lang : Language)
    (col : Nat) :
    (writeLeft ds.reverse = strConcat (leftPieces ds))
    ∧ (CDecl.writeRight ds false vp lang col =
        rightZip (ds.zip (prevPtrFlags ds)) vp lang col)
    ∧ (∀ i d f, (ds.zip (prevPtrFlags ds))[i]? = some (d, f) →
        (isArrOrFunc d && f) = groupedAt ds i
        ∧ ∀ c2, CDecl.rightOne d f vp lang c2 =
            (if groupedAt ds i then ")" else "") ++
              rightCore d vp lang (colStep c2 (if groupedAt ds i then ")" else "")))
    ∧ ((∀ i, groupedAt ds i = false) →
        (writeLeft ds.reverse).data.count '(' = 0
        ∧ CDecl.writeRight ds false vp lang col =
            rightZip (ds.map (fun d => (d, false))) vp lang col) := by
  have hflagchar : ∀ i d f, (ds.zip (prevPtrFlags ds))[i]? = some (d, f) →
      (isArrOrFunc d && f) = groupedAt ds i := by
    intro i d f h
    rw [show prevPtrFlags ds = false :: ds.map CDeclarator.is_ptr from rfl] at h
    rw [zip_flags_get ds false i] at h
    cases hg : ds[i]? with
    | none => rw [hg] at h; simp at h
    | some d0 =>
      rw [hg] at h
      have h2 := Option.some.inj h
      cases h2
      cases i with
      | zero => simp [groupedAt, hg]
      | succ j => simp [groupedAt, hg]
  refine ⟨writeLeft_pieces ds, ?_, ?_, ?_⟩
  · rw [show prevPtrFlags ds = false :: ds.map CDeclarator.is_ptr from rfl]
    exact writeRight_zip_eq ds false vp lang col
  · intro i d f h
    refine ⟨hflagchar i d f h, ?_⟩
    intro c2
    rw [← hflagchar i d f h]
    exact rightOne_decomp d f vp lang c2
  · intro hng
    constructor
    · rw [writeLeft_pieces ds]
      apply strConcat_count_zero
      intro s hs
      simp only [leftPieces, List.mem_map] at hs
      obtain ⟨i, _, rfl⟩ := hs
      rw [hng i]
      show (leftCoreAt ds i).data.count '(' = 0
      cases hg : ds[i]? with
      | none => simp [leftCoreAt, hg]
      | some d =>
        rw [show leftCoreAt ds i = leftCore d from by simp [leftCoreAt, hg]]
        exact leftCore_no_paren d
    · rw [writeRight_zip_eq ds false vp lang col]
      rw [rightZip_noFlags _ vp lang col (by
        intro p hp
        obtain ⟨i, hpi⟩ := List.mem_iff_getElem?.mp hp
        have := hflagchar i p.1 p.2 (by
          rw [show prevPtrFlags ds = false :: ds.map CDeclarator.is_ptr from rfl]
          rw [hpi])
        rw [show (isArrOrFunc p.1 && p.2) = groupedAt ds i from this, hng i])]
      have hfst : (ds.zip (false :: ds.map CDeclarator.is_ptr)).map Prod.fst = ds := by
        apply List.map_fst_zip
        simp
      rw [show (ds.zip (false :: ds.map CDeclarator.is_ptr)).map (fun p => (p.1, false)) =
          ((ds.zip (false :: ds.map CDeclarator.is_ptr)).map Prod.fst).map
            (fun d => (d, false)) from by rw [List.map_map]; rfl]
      rw [hfst]

/-- Witness for C1 at the concrete list of `int *x[4]` (an array whose
reverse-walk successor is not pointer-like): no adjacency, hence no
grouping parenthesis in the left pass. -/
theorem c1_parenthesization_witness :
    (writeLeft ([CDeclarator.Arr "4", CDeclarator.Ptr false]).reverse).data.count '(' = 0 := by
  have h := (c1_parenthesization [CDeclarator.Arr "4", CDeclarator.Ptr false]
    false Language.C 0).2.2.2
  refine (h ?_).1
  intro i
  match i with
  | 0 => rfl
  | 1 => rfl
  | n + 2 => simp [groupedAt]

/-- C5: the three pointer/array examples in the C dialect:
`Ptr(int)` → `int *x`, pointer-to-array → `int (*x)[4]`,
array-of-pointers → `int *x[4]`. -/
theorem c5_pointer_array_examples :
    write_field (Ty.Ptr (Ty.Primitive "int")) "x" Language.C = "int *x"
    ∧ write_field (Ty.Ptr (Ty.Arr (Ty.Primitive "int") "4")) "x" Language.C =
        "int (*x)[4]"
    ∧ write_field (Ty.Arr (Ty.Ptr (Ty.Primitive "int")) "4") "x" Language.C =
        "int *x[4]" := by
  refine ⟨?_, ?_, ?_⟩ <;>
    simp [write_field, CDecl.from_type, CDecl.build_type, CDecl.new, CDecl.write,
      CDecl.writeRight, CDecl.rightOne, CDecl.writeArgsH, CDecl.writeArgsV,
      writeGenerics, writeLeft, leftOne, CDecl.type_qualifers, CDecl.type_name,
      CDecl.type_generic_args, CDecl.declarators, CDecl.type_ctype,
      CDeclarator.is_ptr, colStep, spacesStr]

theorem type_qualifers_mk (q n : String) (g : List Ty) (d : List CDeclarator)
    (c : Option String) : (CDecl.mk q n g d c).type_qualifers = q := rfl

theorem type_name_mk (q n : String) (g : List Ty) (d : List CDeclarator)
    (c : Option String) : (CDecl.mk q n g d c).type_name = n := rfl

theorem type_generic_args_mk (q n : String) (g : List Ty) (d : List CDeclarator)
    (c : Option String) : (CDecl.mk q n g d c).type_generic_args = g := rfl

theorem declarators_mk (q n : String) (g : List Ty) (d : List CDeclarator)
    (c : Option String) : (CDecl.mk q n g d c).declarators = d := rfl

theorem type_ctype_mk (q n : String) (g : List Ty) (d : List CDeclarator)
    (c : Option String) : (CDecl.mk q n g d c).type_ctype = c := rfl

theorem build_type_decls : ∀ (t : Ty) (ds0 : List CDeclarator) (c : Bool)
    (lang : Language),
    CDecl.build_type ⟨"", "", [], ds0, none⟩ t c lang =
      (CDecl.build_type CDecl.new t c lang).map
        (fun r => ⟨r.type_qualifers, r.type_name, r.type_generic_args,
          ds0 ++ r.declarators, r.type_ctype⟩)
  | .Path name gs ct => by
    intro ds0 c lang
    cases c <;>
      simp [CDecl.build_type, CDecl.new, type_qualifers_mk, type_name_mk,
        type_generic_args_mk, declarators_mk, type_ctype_mk]
  | .Primitive p => by
    intro ds0 c lang
    cases c <;>
      simp [CDecl.build_type, CDecl.new, type_qualifers_mk, type_name_mk,
        type_generic_args_mk, declarators_mk, type_ctype_mk]
  | .ConstPtr t' => by
    have ih := build_type_decls t'
    intro ds0 c lang
    simp only [CDecl.build_type, CDecl.new, type_qualifers_mk, type_name_mk,
      type_generic_args_mk, declarators_mk, type_ctype_mk, List.nil_append]
    rw [ih (ds0 ++ [CDeclarator.Ptr c]) true lang, ih [CDeclarator.Ptr c] true lang]
    rw [Option.map_map]
    cases CDecl.build_type CDecl.new t' true lang with
    | none => rfl
    | some r =>
      obtain ⟨rq, rn, rg, rd, rc⟩ := r
      simp [type_qualifers_mk, type_name_mk, type_generic_args_mk,
        declarators_mk, type_ctype_mk]
  | .Ptr t' => by
    have ih := build_type_decls t'
    intro ds0 c lang
    simp only [CDecl.build_type, CDecl.new, type_qualifers_mk, type_name_mk,
      type_generic_args_mk, declarators_mk, type_ctype_mk, List.nil_append]
    rw [ih (ds0 ++ [CDeclarator.Ptr c]) false lang, ih [CDeclarator.Ptr c] false lang]
    rw [Option.map_map]
    cases CDecl.build_type CDecl.new t' false lang with
    | none => rfl
    | some r =>
      obtain ⟨rq, rn, rg, rd, rc⟩ := r
      simp [type_qualifers_mk, type_name_mk, type_generic_args_mk,
        declarators_mk, type_ctype_mk]
  | .Ref t' => by
    have ih := build_type_decls t'
    intro ds0 c lang
    simp only [CDecl.build_type, CDecl.new, type_qualifers_mk, type_name_mk,
      type_generic_args_mk, declarators_mk, type_ctype_mk, List.nil_append]
    rw [ih (ds0 ++ [CDeclarator.Ref]) true lang, ih [CDeclarator.Ref] true lang]
    rw [Option.map_map]
    cases CDecl.build_type CDecl.new t' true lang with
    | none => rfl
    | some r =>
      obtain ⟨rq, rn, rg, rd, rc⟩ := r
      simp [type_qualifers_mk, type_name_mk, type_generic_args_mk,
        declarators_mk, type_ctype_mk]
  | .MutRef t' => by
    have ih := build_type_decls t'
    intro ds0 c lang
    simp only [CDecl.build_type, CDecl.new, type_qualifers_mk, type_name_mk,
      type_generic_args_mk, declarators_mk, type_ctype_mk, List.nil_append]
    rw [ih (ds0 ++ [CDeclarator.Ref]) false lang, ih [CDeclarator.Ref] false lang]
    rw [Option.map_map]
    cases CDecl.build_type CDecl.new t' false lang with
    | none => rfl
    | some r =>
      obtain ⟨rq, rn, rg, rd, rc⟩ := r
      simp [type_qualifers_mk, type_name_mk, type_generic_args_mk,
        declarators_mk, type_ctype_mk]
  | .Arr t' len => by
    have ih := build_type_decls t'
    intro ds0 c lang
    simp only [CDecl.build_type, CDecl.new, type_qualifers_mk, type_name_mk,
      type_generic_args_mk, declarators_mk, type_ctype_mk, List.nil_append]
    rw [ih (ds0 ++ [CDeclarator.Arr len]) c lang, ih [CDeclarator.Arr len] c lang]
    rw [Option.map_map]
    cases CDecl.build_type CDecl.new t' c lang with
    | none => rfl
    | some r =>
      obtain ⟨rq, rn, rg, rd, rc⟩ := r
      simp [type_qualifers_mk, type_name_mk, type_generic_args_mk,
        declarators_mk, type_ctype_mk]
  | .FuncPtr ret args => by
    have ihret := build_type_decls ret
    intro ds0 c lang
    simp only [CDecl.build_type, CDecl.new, type_qualifers_mk, type_name_mk,
      type_generic_args_mk, declarators_mk, type_ctype_mk, List.nil_append]
    cases CDecl.build_args args lang with
    | none => rfl
    | some margs =>
      dsimp only
      rw [ihret (ds0 ++ [CDeclarator.Ptr false, CDeclarator.Func margs false]) false lang,
        ihret [CDeclarator.Ptr false, CDeclarator.Func margs false] false lang]
      rw [Option.map_map]
      cases CDecl.build_type CDecl.new ret false lang with
      | none => rfl
      | some r =>
        obtain ⟨rq, rn, rg, rd, rc⟩ := r
        simp [type_qualifers_mk, type_name_mk, type_generic_args_mk,
          declarators_mk, type_ctype_mk]

/-- C4: `FuncPtr(ret, args)` builds exactly a non-const pointer operation
followed by a function-arguments operation in front of the declarator chain
of the return type (with the same base-type fields); and the literal
example renders as `int (*f)(int a)`. -/
theorem c4_funcptr_expansion :
    (∀ (ret : Ty) (args : List (Option String × Ty)) (lang : Language),
      CDecl.from_type (Ty.FuncPtr ret args) lang =
        match CDecl.build_args args lang, CDecl.from_type ret lang with
        | some margs, some rc =>
          some ⟨rc.type_qualifers, rc.type_name, rc.type_generic_args,
            CDeclarator.Ptr false :: CDeclarator.Func margs false :: rc.declarators,
            rc.type_ctype⟩
        | _, _ => none)
    ∧ write_field (Ty.FuncPtr (Ty.Primitive "int") [(some "a", Ty.Primitive "int")])
        "f" Language.C = "int (*f)(int a)" := by
  constructor
  · intro ret args lang
    rw [show CDecl.from_type ret lang = CDecl.build_type CDecl.new ret false lang
      from rfl]
    simp only [CDecl.from_type, CDecl.build_type, CDecl.new, type_qualifers_mk,
      type_name_mk, type_generic_args_mk, declarators_mk, type_ctype_mk,
      List.nil_append]
    cases CDecl.build_args args lang with
    | none => rfl
    | some margs =>
      dsimp only
      rw [build_type_decls ret
        [CDeclarator.Ptr false, CDeclarator.Func margs false] false lang]
      rw [show (CDecl.mk "" "" [] ([] : List CDeclarator) none) = CDecl.new from rfl]
      cases CDecl.build_type CDecl.new ret false lang with
      | none => rfl
      | some rc => rfl
  · simp [write_field, CDecl.from_type, CDecl.build_type, CDecl.build_args,
      CDecl.new, CDecl.write, CDecl.writeRight, CDecl.rightOne, CDecl.writeArgsH,
      CDecl.writeArgsV, writeGenerics, writeLeft, leftOne, CDecl.type_qualifers,
      CDecl.type_name, CDecl.type_generic_args, CDecl.declarators,
      CDecl.type_ctype, CDeclarator.is_ptr, colStep, spacesStr]

theorem build_type_second_name : ∀ (t : Ty) (s : CDecl) (b : Bool) (lang : Language),
    s.type_name.length ≠ 0 → CDecl.build_type s t b lang = none
  | .Path name gs ct => by
    intro s b lang hn
    obtain ⟨q, n, sgs, ds, c⟩ := s
    rw [type_name_mk] at hn
    cases b with
    | false =>
      simp [CDecl.build_type, type_qualifers_mk, type_name_mk,
        type_generic_args_mk, declarators_mk, type_ctype_mk, hn]
    | true =>
      by_cases hq2 : q.length = 0 <;>
        simp [CDecl.build_type, type_qualifers_mk, type_name_mk,
          type_generic_args_mk, declarators_mk, type_ctype_mk, hn, hq2]
  | .Primitive p => by
    intro s b lang hn
    obtain ⟨q, n, sgs, ds, c⟩ := s
    rw [type_name_mk] at hn
    cases b with
    | false =>
      simp [CDecl.build_type, type_qualifers_mk, type_name_mk,
        type_generic_args_mk, declarators_mk, type_ctype_mk, hn]
    | true =>
      by_cases hq2 : q.length = 0 <;>
        simp [CDecl.build_type, type_qualifers_mk, type_name_mk,
          type_generic_args_mk, declarators_mk, type_ctype_mk, hn, hq2]
  | .ConstPtr t' => by
    intro s b lang hn
    obtain ⟨q, n, sgs, ds, c⟩ := s
    simp only [CDecl.build_type, type_qualifers_mk, type_name_mk,
      type_generic_args_mk, declarators_mk, type_ctype_mk]
    exact build_type_second_name t' _ true lang (by rw [type_name_mk] at hn ⊢; exact hn)
  | .Ptr t' => by
    intro s b lang hn
    obtain ⟨q, n, sgs, ds, c⟩ := s
    simp only [CDecl.build_type, type_qualifers_mk, type_name_mk,
      type_generic_args_mk, declarators_mk, type_ctype_mk]
    exact build_type_second_name t' _ false lang (by rw [type_name_mk] at hn ⊢; exact hn)
  | .Ref t' => by
    intro s b lang hn
    obtain ⟨q, n, sgs, ds, c⟩ := s
    simp only [CDecl.build_type, type_qualifers_mk, type_name_mk,
      type_generic_args_mk, declarators_mk, type_ctype_mk]
    exact build_type_second_name t' _ true lang (by rw [type_name_mk] at hn ⊢; exact hn)
  | .MutRef t' => by
    intro s b lang hn
    obtain ⟨q, n, sgs, ds, c⟩ := s
    simp only [CDecl.build_type, type_qualifers_mk, type_name_mk,
      type_generic_args_mk, declarators_mk, type_ctype_mk]
    exact build_type_second_name t' _ false lang (by rw [type_name_mk] at hn ⊢; exact hn)
  | .Arr t' len => by
    intro s b lang hn
    obtain ⟨q, n, sgs, ds, c⟩ := s
    simp only [CDecl.build_type, type_qualifers_mk, type_name_mk,
      type_generic_args_mk, declarators_mk, type_ctype_mk]
    exact build_type_second_name t' _ b lang (by rw [type_name_mk] at hn ⊢; exact hn)
  | .FuncPtr ret args => by
    intro s b lang hn
    obtain ⟨q, n, sgs, ds, c⟩ := s
    simp only [CDecl.build_type, type_qualifers_mk, type_name_mk,
      type_generic_args_mk, declarators_mk, type_ctype_mk]
    cases CDecl.build_args args lang with
    | none => rfl
    | some margs =>
      dsimp only
      exact build_type_second_name ret _ false lang
        (by rw [type_name_mk] at hn ⊢; exact hn)

theorem build_type_second_const (s : CDecl) (lang : Language)
    (hq : s.type_qualifers.length ≠ 0) :
    (∀ p, CDecl.build_type s (Ty.Primitive p) true lang = none)
    ∧ (∀ name gs ct, CDecl.build_type s (Ty.Path name gs ct) true lang = none) := by
  obtain ⟨q, n, sgs, ds, c⟩ := s
  rw [type_qualifers_mk] at hq
  constructor
  · intro p
    simp [CDecl.build_type, type_qualifers_mk, hq]
  · intro name gs ct
    simp [CDecl.build_type, type_qualifers_mk, hq]

mutual
theorem build_type_ok : ∀ (t : Ty) (s : CDecl) (b : Bool) (lang : Language),
    s.type_name.length = 0 → s.type_qualifers.length = 0 →
    s.type_generic_args.length = 0 →
    (CDecl.build_type s t b lang).isSome = true
  | .Path name gs ct => by
    intro s b lang hn hq hg
    obtain ⟨q, n, sgs, ds, c⟩ := s
    rw [type_name_mk] at hn
    rw [type_qualifers_mk] at hq
    rw [type_generic_args_mk] at hg
    cases b <;>
      simp [CDecl.build_type, type_qualifers_mk, type_name_mk,
        type_generic_args_mk, declarators_mk, type_ctype_mk, hn, hq, hg]
  | .Primitive p => by
    intro s b lang hn hq hg
    obtain ⟨q, n, sgs, ds, c⟩ := s
    rw [type_name_mk] at hn
    rw [type_qualifers_mk] at hq
    cases b <;>
      simp [CDecl.build_type, type_qualifers_mk, type_name_mk,
        type_generic_args_mk, declarators_mk, type_ctype_mk, hn, hq]
  | .ConstPtr t' => by
    intro s b lang hn hq hg
    obtain ⟨q, n, sgs, ds, c⟩ := s
    simp only [CDecl.build_type, type_qualifers_mk, type_name_mk,
      type_generic_args_mk, declarators_mk, type_ctype_mk]
    exact build_type_ok t' _ true lang hn hq hg
  | .Ptr t' => by
    intro s b lang hn hq hg
    obtain ⟨q, n, sgs, ds, c⟩ := s
    simp only [CDecl.build_type, type_qualifers_mk, type_name_mk,
      type_generic_args_mk, declarators_mk, type_ctype_mk]
    exact build_type_ok t' _ false lang hn hq hg
  | .Ref t' => by
    intro s b lang hn hq hg
    obtain ⟨q, n, sgs, ds, c⟩ := s
    simp only [CDecl.build_type, type_qualifers_mk, type_name_mk,
      type_generic_args_mk, declarators_mk, type_ctype_mk]
    exact build_type_ok t' _ true lang hn hq hg
  | .MutRef t' => by
    intro s b lang hn hq hg
    obtain ⟨q, n, sgs, ds, c⟩ := s
    simp only [CDecl.build_type, type_qualifers_mk, type_name_mk,
      type_generic_args_mk, declarators_mk, type_ctype_mk]
    exact build_type_ok t' _ false lang hn hq hg
  | .Arr t' len => by
    intro s b lang hn hq hg
    obtain ⟨q, n, sgs, ds, c⟩ := s
    simp only [CDecl.build_type, type_qualifers_mk, type_name_mk,
      type_generic_args_mk, declarators_mk, type_ctype_mk]
    exact build_type_ok t' _ b lang hn hq hg
  | .FuncPtr ret args => by
    intro s b lang hn hq hg
    obtain ⟨q, n, sgs, ds, c⟩ := s
    simp only [CDecl.build_type, type_qualifers_mk, type_name_mk,
      type_generic_args_mk, declarators_mk, type_ctype_mk]
    have hargs := build_args_ok args lang
    cases harg : CDecl.build_args args lang with
    | none => rw [harg] at hargs; simp at hargs
    | some margs =>
      dsimp only
      exact build_type_ok ret _ false lang hn hq hg

theorem build_args_ok : ∀ (args : List (Option String × Ty)) (lang : Language),
    (CDecl.build_args args lang).isSome = true
  | [] => by
    intro lang
    simp [CDecl.build_args]
  | (name, t) :: rest => by
    intro lang
    simp only [CDecl.build_args]
    have h1 := build_type_ok t CDecl.new false lang rfl rfl rfl
    cases hc : CDecl.build_type CDecl.new t false lang with
    | none => rw [hc] at h1; simp at h1
    | some c =>
      have h2 := build_args_ok rest lang
      cases hcs : CDecl.build_args rest lang with
      | none => rw [hcs] at h2; simp at h2
      | some cs => simp
end

/-- C3: the single-base-type invariant is enforced fail-fast: building any
type into a declarator list that already carries a base-type name aborts
(`none`, modelling the `assert!` panic), and so does attaching a second
`const` qualifier at a `Primitive` or `Path` leaf; and for every type tree
(the `Ty` grammar itself guarantees that every root-to-leaf spine ends in
exactly one `Primitive` or `Path` leaf) the build succeeds. -/
theorem c3_single_base_type :
    (∀ (t : Ty) (s : CDecl) (b : Bool) (lang : Language),
      s.type_name.length ≠ 0 → CDecl.build_type s t b lang = none)
    ∧ (∀ (s : CDecl) (lang : Language), s.type_qualifers.length ≠ 0 →
        (∀ p, CDecl.build_type s (Ty.Primitive p) true lang = none)
        ∧ (∀ name gs ct, CDecl.build_type s (Ty.Path name gs ct) true lang = none))
    ∧ (∀ (t : Ty) (lang : Language), (CDecl.from_type t lang).isSome = true) :=
  ⟨build_type_second_name,
   build_type_second_const,
   fun t lang => build_type_ok t CDecl.new false lang rfl rfl rfl⟩

/-- Witness for C3: a list already carrying base name `x` rejects a second
base type; a list already carrying `const` rejects a second qualifier; and
building `*mut i32` succeeds. -/
theorem c3_single_base_type_witness :
    CDecl.build_type ⟨"", "x", [], [], none⟩ (Ty.Primitive "int") false Language.C = none
    ∧ CDecl.build_type ⟨"const", "", [], [], none⟩ (Ty.Primitive "int") true Language.C = none
    ∧ (CDecl.from_type (Ty.Ptr (Ty.Primitive "int")) Language.C).isSome = true :=
  ⟨c3_single_base_type.1 (Ty.Primitive "int") ⟨"", "x", [], [], none⟩ false Language.C
     (by decide),
   (c3_single_base_type.2.1 ⟨"const", "", [], [], none⟩ Language.C (by decide)).1 "int",
   c3_single_base_type.2.2 (Ty.Ptr (Ty.Primitive "int")) Language.C⟩

/-- Declarator operations that render a `const` (`*const `). -/
def isConstPtrD : CDeclarator → Bool
  | .Ptr true => true
  | .Ptr false => false
  | .Ref => false
  | .Arr _ => false
  | .Func _ _ => false

/-- Number of `const` qualifiers the writer will render for this declarator
list at its own level: one for a non-empty base qualifier plus one for each
const pointer operation. -/
def topConstCount (c : CDecl) : Nat :=
  (if c.type_qualifers.length ≠ 0 then 1 else 0) +
    (c.declarators.filter isConstPtrD).length

/-- Const count of a build result (`0` for the unreachable panic case). -/
def optConstCount (o : Option CDecl) : Nat :=
  (o.map topConstCount).getD 0

/-- Whether the threaded `const` flag survives the walk into `t`: it is
consumed by the first leaf or pointer reached through array wrappers, and
dropped by references and function pointers. -/
def constSink : Ty → Bool
  | .Path _ _ _ => true
  | .Primitive _ => true
  | .ConstPtr _ => true
  | .Ptr _ => true
  | .Ref _ => false
  | .MutRef _ => false
  | .Arr t _ => constSink t
  | .FuncPtr _ _ => false

theorem topConstCount_prepend (ds0 : List CDeclarator) (r : CDecl) :
    topConstCount ⟨r.type_qualifers, r.type_name, r.type_generic_args,
      ds0 ++ r.declarators, r.type_ctype⟩ =
      (ds0.filter isConstPtrD).length + topConstCount r := by
  obtain ⟨q, n, g, d, ct⟩ := r
  simp only [topConstCount, type_qualifers_mk, declarators_mk, List.filter_append,
    List.length_append]
  omega

/-- Const count of building `t` into a fresh list with the given flag. -/
def ccAux (t : Ty) (b : Bool) (lang : Language) : Nat :=
  optConstCount (CDecl.build_type CDecl.new t b lang)

theorem topConstCount_cons_ptr (b : Bool) (r : CDecl) :
    topConstCount ⟨r.type_qualifers, r.type_name, r.type_generic_args,
      CDeclarator.Ptr b :: r.declarators, r.type_ctype⟩ =
      topConstCount r + (if b then 1 else 0) := by
  obtain ⟨q, n, g, d, ct⟩ := r
  cases b <;>
    simp [topConstCount, type_qualifers_mk, declarators_mk, List.filter_cons,
      isConstPtrD] <;>
    omega

theorem topConstCount_cons_arr (len : String) (r : CDecl) :
    topConstCount ⟨r.type_qualifers, r.type_name, r.type_generic_args,
      CDeclarator.Arr len :: r.declarators, r.type_ctype⟩ = topConstCount r := by
  obtain ⟨q, n, g, d, ct⟩ := r
  simp [topConstCount, type_qualifers_mk, declarators_mk, List.filter_cons,
    isConstPtrD]

theorem ccAux_delta : ∀ (t : Ty) (lang : Language),
    ccAux t true lang = ccAux t false lang + (if constSink t then 1 else 0)
  | .Path name gs ct => by
    intro lang
    simp [ccAux, optConstCount, CDecl.build_type, CDecl.new, type_qualifers_mk,
      type_name_mk, type_generic_args_mk, declarators_mk, type_ctype_mk,
      topConstCount, constSink, List.filter]
    decide
  | .Primitive p => by
    intro lang
    simp [ccAux, optConstCount, CDecl.build_type, CDecl.new, type_qualifers_mk,
      type_name_mk, type_generic_args_mk, declarators_mk, type_ctype_mk,
      topConstCount, constSink, List.filter]
    decide
  | .ConstPtr u => by
    intro lang
    have hok := build_type_ok u CDecl.new true lang rfl rfl rfl
    obtain ⟨r, hr⟩ := Option.isSome_iff_exists.mp hok
    simp only [ccAux, CDecl.build_type, CDecl.new, type_qualifers_mk, type_name_mk,
      type_generic_args_mk, declarators_mk, type_ctype_mk, List.nil_append]
    rw [build_type_decls u [CDeclarator.Ptr true] true lang,
      build_type_decls u [CDeclarator.Ptr false] true lang]
    rw [hr]
    simp [optConstCount, topConstCount_cons_ptr, constSink]
  | .Ptr u => by
    intro lang
    have hok := build_type_ok u CDecl.new false lang rfl rfl rfl
    obtain ⟨r, hr⟩ := Option.isSome_iff_exists.mp hok
    simp only [ccAux, CDecl.build_type, CDecl.new, type_qualifers_mk, type_name_mk,
      type_generic_args_mk, declarators_mk, type_ctype_mk, List.nil_append]
    rw [build_type_decls u [CDeclarator.Ptr true] false lang,
      build_type_decls u [CDeclarator.Ptr false] false lang]
    rw [hr]
    simp [optConstCount, topConstCount_cons_ptr, constSink]
  | .Ref u => by
    intro lang
    simp [ccAux, CDecl.build_type, constSink]
  | .MutRef u => by
    intro lang
    simp [ccAux, CDecl.build_type, constSink]
  | .Arr u len => by
    intro lang
    have ih := ccAux_delta u lang
    have hokT := build_type_ok u CDecl.new true lang rfl rfl rfl
    have hokF := build_type_ok u CDecl.new false lang rfl rfl rfl
    obtain ⟨rT, hrT⟩ := Option.isSome_iff_exists.mp hokT
    obtain ⟨rF, hrF⟩ := Option.isSome_iff_exists.mp hokF
    simp only [ccAux] at ih
    rw [hrT, hrF] at ih
    simp [optConstCount] at ih
    simp only [ccAux, CDecl.build_type, CDecl.new, type_qualifers_mk, type_name_mk,
      type_generic_args_mk, declarators_mk, type_ctype_mk, List.nil_append]
    rw [build_type_decls u [CDeclarator.Arr len] true lang,
      build_type_decls u [CDeclarator.Arr len] false lang]
    rw [hrT, hrF]
    simpa [optConstCount, topConstCount_cons_arr, constSink] using ih
  | .FuncPtr ret args => by
    intro lang
    simp only [ccAux, CDecl.build_type, constSink]
    cases CDecl.build_args args lang <;> simp

theorem optConstCount_map_cons (d : CDeclarator) (hd : isConstPtrD d = false)
    (o : Option CDecl) :
    optConstCount (o.map (fun r => ⟨r.type_qualifers, r.type_name,
      r.type_generic_args, d :: r.declarators, r.type_ctype⟩)) =
      optConstCount o := by
  cases o with
  | none => rfl
  | some r =>
    obtain ⟨q, n, g, ds, ct⟩ := r
    simp [optConstCount, topConstCount, type_qualifers_mk, declarators_mk,
      List.filter_cons, hd]

theorem optConstCount_map_single (d : CDeclarator) (hd : isConstPtrD d = false)
    (o : Option CDecl) :
    optConstCount (o.map (fun r => ⟨r.type_qualifers, r.type_name,
      r.type_generic_args, [d] ++ r.declarators, r.type_ctype⟩)) =
      optConstCount o := by
  cases o with
  | none => rfl
  | some r =>
    obtain ⟨q, n, g, ds, ct⟩ := r
    simp [optConstCount, topConstCount, type_qualifers_mk, declarators_mk,
      List.filter_cons, hd]

/-- C2 (amended): relative to `Ptr(T)`/`MutRef(T)`, building `ConstPtr(T)`/
`Ref(T)` adds exactly one rendered `const` when the threaded flag survives
the walk into `T` (`constSink`: through array wrappers to a leaf or
pointer), and adds none when `T` starts with a reference or function
pointer (the flag is dropped there); `Ptr`/`MutRef` themselves never add a
`const` for their pointee. -/
theorem c2_const_propagation (t : Ty) (lang : Language) :
    (optConstCount (CDecl.from_type (Ty.ConstPtr t) lang) =
      optConstCount (CDecl.from_type (Ty.Ptr t) lang) +
        (if constSink t then 1 else 0))
    ∧ (optConstCount (CDecl.from_type (Ty.Ref t) lang) =
      optConstCount (CDecl.from_type (Ty.MutRef t) lang) +
        (if constSink t then 1 else 0))
    ∧ (optConstCount (CDecl.from_type (Ty.Ptr t) lang) =
      optConstCount (CDecl.from_type t lang))
    ∧ (optConstCount (CDecl.from_type (Ty.MutRef t) lang) =
      optConstCount (CDecl.from_type t lang)) := by
  have hCP : CDecl.from_type (Ty.ConstPtr t) lang =
      CDecl.build_type ⟨"", "", [], [CDeclarator.Ptr false], none⟩ t true lang := rfl
  have hP : CDecl.from_type (Ty.Ptr t) lang =
      CDecl.build_type ⟨"", "", [], [CDeclarator.Ptr false], none⟩ t false lang := rfl
  have hR : CDecl.from_type (Ty.Ref t) lang =
      CDecl.build_type ⟨"", "", [], [CDeclarator.Ref], none⟩ t true lang := rfl
  have hMR : CDecl.from_type (Ty.MutRef t) lang =
      CDecl.build_type ⟨"", "", [], [CDeclarator.Ref], none⟩ t false lang := rfl
  have hdelta := ccAux_delta t lang
  refine ⟨?_, ?_, ?_, ?_⟩
  · rw [hCP, hP, build_type_decls t [CDeclarator.Ptr false] true lang,
      build_type_decls t [CDeclarator.Ptr false] false lang]
    rw [optConstCount_map_single (CDeclarator.Ptr false) rfl,
      optConstCount_map_single (CDeclarator.Ptr false) rfl]
    exact hdelta
  · rw [hR, hMR, build_type_decls t [CDeclarator.Ref] true lang,
      build_type_decls t [CDeclarator.Ref] false lang]
    rw [optConstCount_map_single CDeclarator.Ref rfl,
      optConstCount_map_single CDeclarator.Ref rfl]
    exact hdelta
  · rw [hP, build_type_decls t [CDeclarator.Ptr false] false lang]
    rw [optConstCount_map_single (CDeclarator.Ptr false) rfl]
    rfl
  · rw [hMR, build_type_decls t [CDeclarator.Ref] false lang]
    rw [optConstCount_map_single CDeclarator.Ref rfl]
    rfl

/-- Counterexample to C2 as stated: `ConstPtr(MutRef(int))` builds and
writes with no `const` at all (`int &*x`), because the `MutRef` arm drops
the incoming const flag — not "exactly once". -/
theorem c2_const_propagation_counterexample :
    write_field (Ty.ConstPtr (Ty.MutRef (Ty.Primitive "int"))) "x" Language.C =
      "int &*x"
    ∧ optConstCount
        (CDecl.from_type (Ty.ConstPtr (Ty.MutRef (Ty.Primitive "int")))
          Language.C) = 0 := by
  constructor
  · simp [write_field, CDecl.from_type, CDecl.build_type, CDecl.new, CDecl.write,
      CDecl.writeRight, CDecl.rightOne, CDecl.writeArgsH, CDecl.writeArgsV,
      writeGenerics, writeLeft, leftOne, CDecl.type_qualifers, CDecl.type_name,
      CDecl.type_generic_args, CDecl.declarators, CDecl.type_ctype,
      CDeclarator.is_ptr, colStep, spacesStr]
  · decide

/-- C6: any function or function-pointer declarator with an empty argument
list renders its parameter list as `(void)` when the explicit-void flag is
set and `()` when not, regardless of layout flag, predecessor, dialect and
position (hence of return type); in particular `void g(void)` and
`void g()` in the C dialect. -/
theorem c6_explicit_void :
    (∀ (args : List (Option String × CDecl)) (lv lwp vp : Bool) (lang : Language)
      (col : Nat), args = [] →
      CDecl.rightOne (CDeclarator.Func args lv) lwp vp lang col =
        (if lwp then ")" else "") ++ "(" ++ (if vp then "void" else "") ++ ")")
    ∧ write_func ⟨"g", [], Ty.Primitive "void"⟩ false true Language.C =
        "void g(void)"
    ∧ write_func ⟨"g", [], Ty.Primitive "void"⟩ false false Language.C =
        "void g()" := by
  refine ⟨?_, ?_, ?_⟩
  · intro args lv lwp vp lang col h
    subst h
    cases lv <;> cases lwp <;> cases vp <;>
      simp [CDecl.rightOne, CDecl.writeArgsH, CDecl.writeArgsV]
  · simp [write_func, CDecl.from_func, CDecl.build_func, buildFuncArgs,
      CDecl.from_type, CDecl.build_type, CDecl.new, CDecl.write,
      CDecl.writeRight, CDecl.rightOne, CDecl.writeArgsH, CDecl.writeArgsV,
      writeGenerics, writeLeft, leftOne, CDecl.type_qualifers, CDecl.type_name,
      CDecl.type_generic_args, CDecl.declarators, CDecl.type_ctype,
      CDeclarator.is_ptr, colStep, spacesStr]
  · simp [write_func, CDecl.from_func, CDecl.build_func, buildFuncArgs,
      CDecl.from_type, CDecl.build_type, CDecl.new, CDecl.write,
      CDecl.writeRight, CDecl.rightOne, CDecl.writeArgsH, CDecl.writeArgsV,
      writeGenerics, writeLeft, leftOne, CDecl.type_qualifers, CDecl.type_name,
      CDecl.type_generic_args, CDecl.declarators, CDecl.type_ctype,
      CDeclarator.is_ptr, colStep, spacesStr]

/-- Witness for C6 at the empty argument list. -/
theorem c6_explicit_void_witness :
    CDecl.rightOne (CDeclarator.Func [] false) false true Language.C 0 = "(void)" := by
  have h := c6_explicit_void.1 [] false false true Language.C 0 rfl
  rw [h]
  decide

/-- Counterexample to C7 as stated: with the explicit-void flag set, the
managed (C#) dialect does not render `void g()` — the `void` placeholder is
emitted independent of dialect. -/
theorem c7_managed_void_counterexample :
    ¬ (write_func ⟨"g", [], Ty.Primitive "void"⟩ false true Language.CS =
        "void g()") := by
  have h : write_func ⟨"g", [], Ty.Primitive "void"⟩ false true Language.CS =
      "void g(void)" := by
    simp [write_func, CDecl.from_func, CDecl.build_func, buildFuncArgs,
      CDecl.from_type, CDecl.build_type, CDecl.new, CDecl.write,
      CDecl.writeRight, CDecl.rightOne, CDecl.writeArgsH, CDecl.writeArgsV,
      writeGenerics, writeLeft, leftOne, CDecl.type_qualifers, CDecl.type_name,
      CDecl.type_generic_args, CDecl.declarators, CDecl.type_ctype,
      CDeclarator.is_ptr, colStep, spacesStr]
  rw [h]
  decide

/-- C7 (amended): with the explicit-void flag set, a zero-argument function
named `g` returning `void` renders as `void g(void)` in every dialect,
including the managed (C#) one: the `(void)` placeholder is emitted
independent of dialect. -/
theorem c7_managed_void (lang : Language) :
    write_func ⟨"g", [], Ty.Primitive "void"⟩ false true lang =
      "void g(void)" := by
  cases lang <;>
    simp [write_func, CDecl.from_func, CDecl.build_func, buildFuncArgs,
      CDecl.from_type, CDecl.build_type, CDecl.new, CDecl.write,
      CDecl.writeRight, CDecl.rightOne, CDecl.writeArgsH, CDecl.writeArgsV,
      writeGenerics, writeLeft, leftOne, CDecl.type_qualifers, CDecl.type_name,
      CDecl.type_generic_args, CDecl.declarators, CDecl.type_ctype,
      CDeclarator.is_ptr, colStep, spacesStr]

/-- C8: in the C# dialect, a declarator list whose single declarator is a
fixed-size array of length `n` renders as the `MarshalAs` size-annotation
attribute (containing `n`) before the qualifier and base type, with the
`[]` suffix appended to the base type name, and with no bracket emitted
after the identifier (the left and right declarator walks contribute
nothing). -/
theorem c8_cs_array_special_case (c : CDecl) (ident : Option String) (vp : Bool)
    (n : String) (h : c.declarators = [CDeclarator.Arr n]) :
    CDecl.write c ident vp Language.CS 0 =
      (let marshal :=
        "[MarshalAs(UnmanagedType.ByValArray, SizeConst=" ++ n ++ ")] readonly ";
       let qual :=
        if c.type_qualifers.length ≠ 0 then c.type_qualifers ++ " " else "";
       let ctypeStr := match c.type_ctype with | some ct => ct ++ " " | none => "";
       let s0 := marshal ++ qual ++ ctypeStr ++ (c.type_name ++ "[]");
       let s1 := s0 ++
        (if c.type_generic_args.isEmpty then ""
         else "<" ++ writeGenerics c.type_generic_args true Language.CS
                (colStep 0 (s0 ++ "<")) ++ ">");
       s1 ++ (if ident.isSome then " " else "") ++
        (match ident with | some i => i | none => "")) := by
  obtain ⟨q, nm, gs, ds, ct⟩ := c
  rw [declarators_mk] at h
  subst h
  cases ct <;> cases ident <;>
    simp [CDecl.write, CDecl.writeRight, CDecl.rightOne, writeLeft, leftOne,
      type_qualifers_mk, type_name_mk, type_generic_args_mk, declarators_mk,
      type_ctype_mk, String.append_assoc]

/-- Witness for C8: a four-element `int` array field `x`. -/
theorem c8_cs_array_special_case_witness :
    CDecl.write ⟨"", "int", [], [CDeclarator.Arr "4"], none⟩ (some "x") false
      Language.CS 0 =
      "[MarshalAs(UnmanagedType.ByValArray, SizeConst=4)] readonly int[] x" := by
  rw [c8_cs_array_special_case ⟨"", "int", [], [CDeclarator.Arr "4"], none⟩
    (some "x") false "4" rfl]
  decide

/-- C10: in the C# dialect the right declarator walk never renders an array
length in bracket form for any array declarator (its piece is at most the
grouping close), so a fixed array that is not the sole declarator — here a
pointer to an array of 4 ints — loses its length entirely: `int (*x)` with
no `4` anywhere. -/
theorem c10_cs_length_lost :
    (∀ (len : String) (lwp vp : Bool) (col : Nat),
      CDecl.rightOne (CDeclarator.Arr len) lwp vp Language.CS col =
        (if lwp then ")" else ""))
    ∧ write_field (Ty.Ptr (Ty.Arr (Ty.Primitive "int") "4")) "x" Language.CS =
        "int (*x)"
    ∧ "int (*x)".data.count '4' = 0 := by
  refine ⟨?_, ?_, by decide⟩
  · intro len lwp vp col
    cases lwp <;> simp [CDecl.rightOne]
  · simp [write_field, CDecl.from_type, CDecl.build_type, CDecl.new, CDecl.write,
      CDecl.writeRight, CDecl.rightOne, CDecl.writeArgsH, CDecl.writeArgsV,
      writeGenerics, writeLeft, leftOne, CDecl.type_qualifers, CDecl.type_name,
      CDecl.type_generic_args, CDecl.declarators, CDecl.type_ctype,
      CDeclarator.is_ptr, colStep, spacesStr]

/-- The part of `CDecl::write` emitted before the right declarator walk:
attribute, qualifier, tag, name, generic arguments, separating space, left
declarator walk, identifier. -/
def writeBase (c : CDecl) (ident : Option String) (lang : Language) (col : Nat) :
    String :=
  let cs_array_sz : Option String :=
    if lang = Language.CS ∧ c.declarators.length = 1 then
      match c.declarators with
      | [CDeclarator.Arr constant] => some constant
      | _ => none
    else
      none
  let marshal : String :=
    match cs_array_sz with
    | some x => "[MarshalAs(UnmanagedType.ByValArray, SizeConst=" ++ x ++ ")] readonly "
    | none => ""
  let qual : String :=
    if c.type_qualifers.length ≠ 0 then c.type_qualifers ++ " " else ""
  let ctypeStr : String :=
    match c.type_ctype with
    | some ct => ct ++ " "
    | none => ""
  let nameStr : String :=
    if cs_array_sz.isSome then c.type_name ++ "[]" else c.type_name
  let s0 := marshal ++ qual ++ ctypeStr ++ nameStr
  let s1 := s0 ++
    (if c.type_generic_args.isEmpty then ""
     else "<" ++ writeGenerics c.type_generic_args true lang (colStep col (s0 ++ "<")) ++ ">")
  let s2 := s1 ++ (if ident.isSome then " " else "")
  let s3 := s2 ++ writeLeft c.declarators.reverse
  s3 ++ (match ident with | some i => i | none => "")

theorem write_split (c : CDecl) (ident : Option String) (vp : Bool)
    (lang : Language) (col : Nat) :
    CDecl.write c ident vp lang col =
      writeBase c ident lang col ++
        CDecl.writeRight c.declarators false vp lang
          (colStep col (writeBase c ident lang col)) := by
  obtain ⟨q, nm, gs, ds, ct⟩ := c
  rcases ds with _ | ⟨d, _ | ⟨e, rest⟩⟩
  · cases ct <;> cases ident <;>
      simp [CDecl.write, writeBase, type_qualifers_mk, type_name_mk,
        type_generic_args_mk, declarators_mk, type_ctype_mk]
  · cases d <;> cases ct <;> cases ident <;>
      simp [CDecl.write, writeBase, type_qualifers_mk, type_name_mk,
        type_generic_args_mk, declarators_mk, type_ctype_mk]
  · cases ct <;> cases ident <;>
      simp [CDecl.write, writeBase, type_qualifers_mk, type_name_mk,
        type_generic_args_mk, declarators_mk, type_ctype_mk]

mutual
/-- No vertical-layout function declarator anywhere in this operation. -/
def noVertD : CDeclarator → Bool
  | .Ptr _ => true
  | .Ref => true
  | .Arr _ => true
  | .Func args lv => !lv && noVertArgs args

/-- No vertical-layout function declarator in any argument. -/
def noVertArgs : List (Option String × CDecl) → Bool
  | [] => true
  | (_, c) :: rest => noVertC c && noVertArgs rest

/-- No vertical-layout function declarator in this declarator list value. -/
def noVertC : CDecl → Bool
  | ⟨_, _, _, ds, _⟩ => noVertDs ds

/-- No vertical-layout function declarator in this operation list. -/
def noVertDs : List CDeclarator → Bool
  | [] => true
  | d :: rest => noVertD d && noVertDs rest
end

theorem noVertDs_append (ds es : List CDeclarator) :
    noVertDs (ds ++ es) = (noVertDs ds && noVertDs es) := by
  induction ds with
  | nil => simp [noVertDs]
  | cons d rest ih =>
    simp only [List.cons_append, noVertDs]
    rw [show rest.append es = rest ++ es from rfl, ih]
    simp [Bool.and_assoc]

mutual
theorem build_type_noVert : ∀ (t : Ty) (s : CDecl) (b : Bool) (lang : Language)
    (out : CDecl), CDecl.build_type s t b lang = some out →
    noVertDs s.declarators = true → noVertC out = true
  | .Path name gs ct => by
    intro s b lang out h hs
    obtain ⟨q, n, sgs, ds, c⟩ := s
    rw [declarators_mk] at hs
    cases b with
    | false =>
      by_cases hn : n.length = 0
      · by_cases hg : sgs.length = 0
        · simp [CDecl.build_type, type_qualifers_mk, type_name_mk,
            type_generic_args_mk, declarators_mk, type_ctype_mk, hn, hg] at h
          subst h
          simp [noVertC, hs]
        · simp [CDecl.build_type, type_qualifers_mk, type_name_mk,
            type_generic_args_mk, declarators_mk, type_ctype_mk, hn, hg] at h
      · simp [CDecl.build_type, type_qualifers_mk, type_name_mk,
          type_generic_args_mk, declarators_mk, type_ctype_mk, hn] at h
    | true =>
      by_cases hq : q.length = 0
      · by_cases hn : n.length = 0
        · by_cases hg : sgs.length = 0
          · simp [CDecl.build_type, type_qualifers_mk, type_name_mk,
              type_generic_args_mk, declarators_mk, type_ctype_mk, hq, hn, hg] at h
            subst h
            simp [noVertC, hs]
          · simp [CDecl.build_type, type_qualifers_mk, type_name_mk,
              type_generic_args_mk, declarators_mk, type_ctype_mk, hq, hn, hg] at h
        · simp [CDecl.build_type, type_qualifers_mk, type_name_mk,
            type_generic_args_mk, declarators_mk, type_ctype_mk, hq, hn] at h
      · simp [CDecl.build_type, type_qualifers_mk, type_name_mk,
          type_generic_args_mk, declarators_mk, type_ctype_mk, hq] at h
  | .Primitive p => by
    intro s b lang out h hs
    obtain ⟨q, n, sgs, ds, c⟩ := s
    rw [declarators_mk] at hs
    cases b with
    | false =>
      by_cases hn : n.length = 0
      · simp [CDecl.build_type, type_qualifers_mk, type_name_mk,
          type_generic_args_mk, declarators_mk, type_ctype_mk, hn] at h
        subst h
        simp [noVertC, hs]
      · simp [CDecl.build_type, type_qualifers_mk, type_name_mk,
          type_generic_args_mk, declarators_mk, type_ctype_mk, hn] at h
    | true =>
      by_cases hq : q.length = 0
      · by_cases hn : n.length = 0
        · simp [CDecl.build_type, type_qualifers_mk, type_name_mk,
            type_generic_args_mk, declarators_mk, type_ctype_mk, hq, hn] at h
          subst h
          simp [noVertC, hs]
        · simp [CDecl.build_type, type_qualifers_mk, type_name_mk,
            type_generic_args_mk, declarators_mk, type_ctype_mk, hq, hn] at h
      · simp [CDecl.build_type, type_qualifers_mk, type_name_mk,
          type_generic_args_mk, declarators_mk, type_ctype_mk, hq] at h
  | .ConstPtr t' => by
    intro s b lang out h hs
    obtain ⟨q, n, sgs, ds, c⟩ := s
    rw [declarators_mk] at hs
    simp only [CDecl.build_type, type_qualifers_mk, type_name_mk,
      type_generic_args_mk, declarators_mk, type_ctype_mk] at h
    exact build_type_noVert t' _ true lang out h
      (by rw [declarators_mk, noVertDs_append, hs]; simp [noVertDs, noVertD])
  | .Ptr t' => by
    intro s b lang out h hs
    obtain ⟨q, n, sgs, ds, c⟩ := s
    rw [declarators_mk] at hs
    simp only [CDecl.build_type, type_qualifers_mk, type_name_mk,
      type_generic_args_mk, declarators_mk, type_ctype_mk] at h
    exact build_type_noVert t' _ false lang out h
      (by rw [declarators_mk, noVertDs_append, hs]; simp [noVertDs, noVertD])
  | .Ref t' => by
    intro s b lang out h hs
    obtain ⟨q, n, sgs, ds, c⟩ := s
    rw [declarators_mk] at hs
    simp only [CDecl.build_type, type_qualifers_mk, type_name_mk,
      type_generic_args_mk, declarators_mk, type_ctype_mk] at h
    exact build_type_noVert t' _ true lang out h
      (by rw [declarators_mk, noVertDs_append, hs]; simp [noVertDs, noVertD])
  | .MutRef t' => by
    intro s b lang out h hs
    obtain ⟨q, n, sgs, ds, c⟩ := s
    rw [declarators_mk] at hs
    simp only [CDecl.build_type, type_qualifers_mk, type_name_mk,
      type_generic_args_mk, declarators_mk, type_ctype_mk] at h
    exact build_type_noVert t' _ false lang out h
      (by rw [declarators_mk, noVertDs_append, hs]; simp [noVertDs, noVertD])
  | .Arr t' len => by
    intro s b lang out h hs
    obtain ⟨q, n, sgs, ds, c⟩ := s
    rw [declarators_mk] at hs
    simp only [CDecl.build_type, type_qualifers_mk, type_name_mk,
      type_generic_args_mk, declarators_mk, type_ctype_mk] at h
    exact build_type_noVert t' _ b lang out h
      (by rw [declarators_mk, noVertDs_append, hs]; simp [noVertDs, noVertD])
  | .FuncPtr ret args => by
    intro s b lang out h hs
    obtain ⟨q, n, sgs, ds, c⟩ := s
    rw [declarators_mk] at hs
    simp only [CDecl.build_type, type_qualifers_mk, type_name_mk,
      type_generic_args_mk, declarators_mk, type_ctype_mk] at h
    cases hargs : CDecl.build_args args lang with
    | none => rw [hargs] at h; exact absurd h (by simp)
    | some margs =>
      rw [hargs] at h
      dsimp only at h
      have hm := build_args_noVert args lang margs hargs
      exact build_type_noVert ret _ false lang out h
        (by rw [declarators_mk, noVertDs_append, hs]
            simp [noVertDs, noVertD, hm])

theorem build_args_noVert : ∀ (args : List (Option String × Ty)) (lang : Language)
    (margs : List (Option String × CDecl)),
    CDecl.build_args args lang = some margs → noVertArgs margs = true
  | [] => by
    intro lang margs h
    simp only [CDecl.build_args, Option.some.injEq] at h
    subst h
    simp [noVertArgs]
  | (name, t) :: rest => by
    intro lang margs h
    simp only [CDecl.build_args] at h
    split at h
    · exact absurd h (by simp)
    · next c hc =>
      split at h
      · exact absurd h (by simp)
      · next cs hcs =>
        simp only [Option.some.injEq] at h
        subst h
        have h1 := build_type_noVert t CDecl.new false lang c hc (by rfl)
        have h2 := build_args_noVert rest lang cs hcs
        simp [noVertArgs, h1, h2]
end

theorem buildFuncArgs_noVert_len : ∀ (args : List (String × Ty)) (lang : Language),
    ∃ margs, buildFuncArgs args lang = some margs ∧ noVertArgs margs = true
      ∧ margs.length = args.length := by
  intro args
  induction args with
  | nil =>
    intro lang
    exact ⟨[], rfl, rfl, rfl⟩
  | cons a rest ih =>
    intro lang
    obtain ⟨name, t⟩ := a
    have hok := build_type_ok t CDecl.new false lang rfl rfl rfl
    obtain ⟨c, hc⟩ := Option.isSome_iff_exists.mp hok
    have hnv := build_type_noVert t CDecl.new false lang c hc (by rfl)
    obtain ⟨mrest, hmrest, hnvrest, hlen⟩ := ih lang
    refine ⟨(some name, c) :: mrest, ?_, ?_, ?_⟩
    · simp only [buildFuncArgs, CDecl.from_type, hc, hmrest]
    · simp [noVertArgs, hnv, hnvrest]
    · simp [hlen]

theorem muC_decomp (c : CDecl) :
    muC c = 2 + gensW c.type_generic_args + muDs c.declarators := by
  obtain ⟨q, n, g, d, ct⟩ := c
  rfl

mutual
theorem write_col_indep (c : CDecl) (ident : Option String) (vp : Bool)
    (lang : Language) (x y : Nat) (h : noVertC c = true) :
    CDecl.write c ident vp lang x = CDecl.write c ident vp lang y := by
  have hds : noVertDs c.declarators = true := by
    obtain ⟨q, nm, gs, ds, ct⟩ := c
    rw [declarators_mk]
    exact h
  rw [write_split, write_split]
  have hgen0 : ∀ a : Nat, writeGenerics c.type_generic_args true lang a =
      writeGenerics c.type_generic_args true lang 0 :=
    fun a => writeGenerics_col_indep c.type_generic_args true lang a 0
  have hbase : writeBase c ident lang x = writeBase c ident lang y := by
    simp only [writeBase]
    try simp only [hgen0]
  rw [hbase]
  rw [writeRight_col_indep c.declarators false vp lang
    (colStep x (writeBase c ident lang y))
    (colStep y (writeBase c ident lang y)) hds]
termination_by muC c
decreasing_by
  all_goals rw [muC_decomp c]
  all_goals omega

theorem writeRight_col_indep : ∀ (ds : List CDeclarator) (lwp vp : Bool)
    (lang : Language) (x y : Nat), noVertDs ds = true →
    CDecl.writeRight ds lwp vp lang x = CDecl.writeRight ds lwp vp lang y
  | [] => by
    intro lwp vp lang x y h
    simp [CDecl.writeRight]
  | d :: rest => by
    intro lwp vp lang x y h
    simp only [noVertDs, Bool.and_eq_true] at h
    obtain ⟨hd, hrest⟩ := h
    simp only [CDecl.writeRight]
    rw [rightOne_col_indep d lwp vp lang x y hd]
    rw [writeRight_col_indep rest d.is_ptr vp lang
      (colStep x (CDecl.rightOne d lwp vp lang y))
      (colStep y (CDecl.rightOne d lwp vp lang y)) hrest]
termination_by ds => 1 + muDs ds
decreasing_by
  all_goals simp only [muDs]
  all_goals have := muD_pos d
  all_goals omega

theorem rightOne_col_indep : ∀ (d : CDeclarator) (lwp vp : Bool) (lang : Language)
    (x y : Nat), noVertD d = true →
    CDecl.rightOne d lwp vp lang x = CDecl.rightOne d lwp vp lang y
  | .Ptr b => by
    intro lwp vp lang x y h
    simp [CDecl.rightOne]
  | .Ref => by
    intro lwp vp lang x y h
    simp [CDecl.rightOne]
  | .Arr len => by
    intro lwp vp lang x y h
    simp [CDecl.rightOne]
  | .Func args lv => by
    intro lwp vp lang x y h
    simp only [noVertD, Bool.and_eq_true, Bool.not_eq_true'] at h
    obtain ⟨hlv, hargs⟩ := h
    subst hlv
    have h0 : ∀ a : Nat, CDecl.writeArgsH args true vp lang a =
        CDecl.writeArgsH args true vp lang 0 :=
      fun a => writeArgsH_col_indep args true vp lang a 0 hargs
    simp only [CDecl.rightOne, Bool.false_eq_true, if_false]
    simp only [h0]
termination_by d => muD d
decreasing_by
  all_goals simp only [muD]
  all_goals omega

theorem writeArgsH_col_indep : ∀ (args : List (Option String × CDecl))
    (first vp : Bool) (lang : Language) (x y : Nat), noVertArgs args = true →
    CDecl.writeArgsH args first vp lang x = CDecl.writeArgsH args first vp lang y
  | [] => by
    intro first vp lang x y h
    simp [CDecl.writeArgsH]
  | (n, a) :: rest => by
    intro first vp lang x y h
    simp only [noVertArgs, Bool.and_eq_true] at h
    obtain ⟨ha, hrest⟩ := h
    have ha0 : ∀ u : Nat, CDecl.write a n vp lang u = CDecl.write a n vp lang 0 :=
      fun u => write_col_indep a n vp lang u 0 ha
    have hr0 : ∀ u : Nat, CDecl.writeArgsH rest false vp lang u =
        CDecl.writeArgsH rest false vp lang 0 :=
      fun u => writeArgsH_col_indep rest false vp lang u 0 hrest
    simp only [CDecl.writeArgsH]
    simp only [ha0, hr0]
termination_by args => muArgs args
decreasing_by
  all_goals simp only [muArgs]
  all_goals omega

theorem writeGenerics_col_indep : ∀ (gens : List Ty) (first : Bool)
    (lang : Language) (x y : Nat),
    writeGenerics gens first lang x = writeGenerics gens first lang y
  | [] => by
    intro first lang x y
    simp [writeGenerics]
  | g :: rest => by
    intro first lang x y
    have hr0 : ∀ u : Nat, writeGenerics rest false lang u =
        writeGenerics rest false lang 0 :=
      fun u => writeGenerics_col_indep rest false lang u 0
    simp only [writeGenerics]
    cases hfg : CDecl.from_type g lang with
    | none => simp only [hr0]
    | some gc =>
      have hnv : noVertC gc = true :=
        build_type_noVert g CDecl.new false lang gc hfg (by rfl)
      have hg0 : ∀ u : Nat, CDecl.write gc none false lang u =
          CDecl.write gc none false lang 0 :=
        fun u => write_col_indep gc none false lang u 0 hnv
      simp only [hg0, hr0]
termination_by gens => 1 + gensW gens
decreasing_by
  all_goals first
    | (simp only [CDecl.from_type] at hfg
       have h1 := build_mu g CDecl.new false lang gc hfg
       have h2 := tyW_lt g
       simp only [muC_new, gensW] at h1 ⊢
       omega)
    | (simp only [gensW]
       omega)
end

/-- The texts of the arguments of a function declarator, each rendered at a
canonical column. -/
def argTexts (margs : List (Option String × CDecl)) (vp : Bool) (lang : Language) :
    List String :=
  margs.map (fun p => CDecl.write p.2 p.1 vp lang 0)

/-- Join a list of strings with a separator between consecutive elements. -/
def strJoinSep (sep : String) : List String → String
  | [] => ""
  | [s] => s
  | s :: rest => s ++ sep ++ strJoinSep sep rest

theorem strJoinSep_cons (sep x : String) (l : List String) :
    strJoinSep sep (x :: l) = x ++ strConcat (l.map (fun s => sep ++ s)) := by
  induction l generalizing x with
  | nil => simp [strJoinSep, strConcat]
  | cons y rest ih =>
    rw [show strJoinSep sep (x :: y :: rest) = x ++ sep ++ strJoinSep sep (y :: rest)
      from rfl]
    rw [ih y]
    simp [strConcat, String.append_assoc]

theorem noVertC_decomp (c : CDecl) : noVertC c = noVertDs c.declarators := by
  obtain ⟨q, n, g, d, ct⟩ := c
  rfl

theorem argsH_false_join : ∀ (margs : List (Option String × CDecl)) (vp : Bool)
    (lang : Language) (col : Nat), noVertArgs margs = true →
    CDecl.writeArgsH margs false vp lang col =
      strConcat (margs.map (fun p => ", " ++ CDecl.write p.2 p.1 vp lang 0)) := by
  intro margs
  induction margs with
  | nil =>
    intro vp lang col h
    simp [CDecl.writeArgsH, strConcat]
  | cons p rest ih =>
    intro vp lang col h
    obtain ⟨n, a⟩ := p
    simp only [noVertArgs, Bool.and_eq_true] at h
    obtain ⟨ha, hrest⟩ := h
    have ha0 : ∀ u : Nat, CDecl.write a n vp lang u = CDecl.write a n vp lang 0 :=
      fun u => write_col_indep a n vp lang u 0 ha
    have ih2 : ∀ col2 : Nat, CDecl.writeArgsH rest false vp lang col2 =
        strConcat (rest.map (fun p => ", " ++ CDecl.write p.2 p.1 vp lang 0)) :=
      fun col2 => ih vp lang col2 hrest
    simp only [CDecl.writeArgsH, List.map_cons, ha0, ih2]
    simp [strConcat, String.append_assoc]

theorem argsH_true_join (margs : List (Option String × CDecl)) (vp : Bool)
    (lang : Language) (col : Nat) (h : noVertArgs margs = true) :
    CDecl.writeArgsH margs true vp lang col =
      strJoinSep ", " (argTexts margs vp lang) := by
  cases margs with
  | nil => simp [CDecl.writeArgsH, argTexts, strJoinSep]
  | cons p rest =>
    obtain ⟨n, a⟩ := p
    simp only [noVertArgs, Bool.and_eq_true] at h
    obtain ⟨ha, hrest⟩ := h
    have ha0 : ∀ u : Nat, CDecl.write a n vp lang u = CDecl.write a n vp lang 0 :=
      fun u => write_col_indep a n vp lang u 0 ha
    have ih2 : ∀ col2 : Nat, CDecl.writeArgsH rest false vp lang col2 =
        strConcat (rest.map (fun p => ", " ++ CDecl.write p.2 p.1 vp lang 0)) :=
      fun col2 => argsH_false_join rest vp lang col2 hrest
    simp only [CDecl.writeArgsH, argTexts, List.map_cons, ha0, ih2]
    rw [strJoinSep_cons]
    rw [List.map_map]
    simp [String.append_assoc]
    rfl

theorem argsV_false_join : ∀ (margs : List (Option String × CDecl)) (vp : Bool)
    (lang : Language) (align col : Nat), noVertArgs margs = true →
    CDecl.writeArgsV margs false vp lang align col =
      strConcat (margs.map (fun p =>
        ("," ++ "\n" ++ spacesStr align) ++ CDecl.write p.2 p.1 vp lang 0)) := by
  intro margs
  induction margs with
  | nil =>
    intro vp lang align col h
    simp [CDecl.writeArgsV, strConcat]
  | cons p rest ih =>
    intro vp lang align col h
    obtain ⟨n, a⟩ := p
    simp only [noVertArgs, Bool.and_eq_true] at h
    obtain ⟨ha, hrest⟩ := h
    have ha0 : ∀ u : Nat, CDecl.write a n vp lang u = CDecl.write a n vp lang 0 :=
      fun u => write_col_indep a n vp lang u 0 ha
    have ih2 : ∀ col2 : Nat, CDecl.writeArgsV rest false vp lang align col2 =
        strConcat (rest.map (fun p =>
          ("," ++ "\n" ++ spacesStr align) ++ CDecl.write p.2 p.1 vp lang 0)) :=
      fun col2 => ih vp lang align col2 hrest
    simp only [CDecl.writeArgsV, List.map_cons, ha0, ih2]
    simp [strConcat, String.append_assoc]

theorem argsV_true_join (margs : List (Option String × CDecl)) (vp : Bool)
    (lang : Language) (align col : Nat) (h : noVertArgs margs = true) :
    CDecl.writeArgsV margs true vp lang align col =
      strJoinSep ("," ++ "\n" ++ spacesStr align) (argTexts margs vp lang) := by
  cases margs with
  | nil => simp [CDecl.writeArgsV, argTexts, strJoinSep]
  | cons p rest =>
    obtain ⟨n, a⟩ := p
    simp only [noVertArgs, Bool.and_eq_true] at h
    obtain ⟨ha, hrest⟩ := h
    have ha0 : ∀ u : Nat, CDecl.write a n vp lang u = CDecl.write a n vp lang 0 :=
      fun u => write_col_indep a n vp lang u 0 ha
    have ih2 : ∀ col2 : Nat, CDecl.writeArgsV rest false vp lang align col2 =
        strConcat (rest.map (fun p =>
          ("," ++ "\n" ++ spacesStr align) ++ CDecl.write p.2 p.1 vp lang 0)) :=
      fun col2 => argsV_false_join rest vp lang align col2 hrest
    simp only [CDecl.writeArgsV, argTexts, List.map_cons, ha0, ih2]
    rw [strJoinSep_cons]
    rw [List.map_map]
    simp [String.append_assoc]
    rfl

theorem writeLeft_func_head_lv (margs : List (Option String × CDecl)) (a b : Bool)
    (rds : List CDeclarator) :
    writeLeft ((CDeclarator.Func margs a :: rds).reverse) =
      writeLeft ((CDeclarator.Func margs b :: rds).reverse) := by
  rw [writeLeft_pieces, writeLeft_pieces]
  congr 1
  simp only [leftPieces, List.length_cons]
  apply List.map_congr_left
  intro i _
  have hgrp : groupedAt (CDeclarator.Func margs a :: rds) i =
      groupedAt (CDeclarator.Func margs b :: rds) i := by
    cases i with
    | zero => simp [groupedAt, isArrOrFunc]
    | succ j =>
      cases j with
      | zero => simp [groupedAt, CDeclarator.is_ptr]
      | succ k => simp [groupedAt]
  have hcore : leftCoreAt (CDeclarator.Func margs a :: rds) i =
      leftCoreAt (CDeclarator.Func margs b :: rds) i := by
    cases i with
    | zero => simp [leftCoreAt, leftCore]
    | succ j => simp [leftCoreAt]
  rw [hgrp, hcore]

theorem writeBase_func_lv (q n : String) (g : List Ty)
    (margs : List (Option String × CDecl)) (a b : Bool) (ds : List CDeclarator)
    (ct : Option String) (ident : Option String) (lang : Language) (col : Nat) :
    writeBase ⟨q, n, g, CDeclarator.Func margs a :: ds, ct⟩ ident lang col =
      writeBase ⟨q, n, g, CDeclarator.Func margs b :: ds, ct⟩ ident lang col := by
  have hL := writeLeft_func_head_lv margs a b ds
  cases ds with
  | nil =>
    simp only [writeBase, type_qualifers_mk, type_name_mk, type_generic_args_mk,
      declarators_mk, type_ctype_mk, List.length_cons, List.length_nil]
    rw [hL]
  | cons e rest =>
    simp only [writeBase, type_qualifers_mk, type_name_mk, type_generic_args_mk,
      declarators_mk, type_ctype_mk, List.length_cons]
    rw [hL]

/-- Render a function declaration with an arbitrary identifier (the
generalization of `write_func`, which passes the function's own name). -/
def writeFuncText (f : Function) (layout_vertical : Bool) (ident : Option String)
    (vp : Bool) (lang : Language) : String :=
  match CDecl.from_func f layout_vertical lang with
  | some c => CDecl.write c ident vp lang 0
  | none => ""

theorem writeFuncText_eq (f : Function) (ident : Option String) (vp : Bool)
    (lang : Language) (lv : Bool) (margs : List (Option String × CDecl))
    (rc : CDecl) (hm : buildFuncArgs f.args lang = some margs)
    (hrc : CDecl.build_type CDecl.new f.ret false lang = some rc)
    (hnvargs : noVertArgs margs = true) (hnvrc : noVertDs rc.declarators = true) :
    writeFuncText f lv ident vp lang =
      (let base := writeBase ⟨rc.type_qualifers, rc.type_name,
         rc.type_generic_args, CDeclarator.Func margs false :: rc.declarators,
         rc.type_ctype⟩ ident lang 0;
       let sB := "(" ++ (if margs.isEmpty && vp then "void" else "");
       let align := colStep (colStep 0 base) sB;
       base ++ (sB ++
         (strJoinSep (if lv then "," ++ "\n" ++ spacesStr align else ", ")
           (argTexts margs vp lang) ++
         (")" ++ CDecl.writeRight rc.declarators true vp lang 0)))) := by
  have hff : CDecl.from_func f lv lang =
      some ⟨rc.type_qualifers, rc.type_name, rc.type_generic_args,
        CDeclarator.Func margs lv :: rc.declarators, rc.type_ctype⟩ := by
    show CDecl.build_func CDecl.new f lv lang = _
    simp only [CDecl.build_func]
    rw [hm]
    dsimp only
    rw [show (⟨CDecl.new.type_qualifers, CDecl.new.type_name,
        CDecl.new.type_generic_args,
        CDecl.new.declarators ++ [CDeclarator.Func margs lv],
        CDecl.new.type_ctype⟩ : CDecl) =
      (⟨"", "", [], [CDeclarator.Func margs lv], none⟩ : CDecl) from rfl]
    rw [build_type_decls f.ret [CDeclarator.Func margs lv] false lang]
    rw [hrc]
    rfl
  rw [show writeFuncText f lv ident vp lang =
      (match CDecl.from_func f lv lang with
       | some c => CDecl.write c ident vp lang 0
       | none => "") from rfl]
  rw [hff]
  dsimp only
  rw [write_split]
  rw [declarators_mk]
  rw [show writeBase ⟨rc.type_qualifers, rc.type_name, rc.type_generic_args,
      CDeclarator.Func margs lv :: rc.declarators, rc.type_ctype⟩ ident lang 0 =
    writeBase ⟨rc.type_qualifers, rc.type_name, rc.type_generic_args,
      CDeclarator.Func margs false :: rc.declarators, rc.type_ctype⟩ ident lang 0
    from writeBase_func_lv rc.type_qualifers rc.type_name rc.type_generic_args
      margs lv false rc.declarators rc.type_ctype ident lang 0]
  simp only [CDecl.writeRight, CDeclarator.is_ptr]
  simp only [CDecl.rightOne]
  cases lv with
  | false =>
    rw [argsH_true_join margs vp lang _ hnvargs]
    rw [writeRight_col_indep rc.declarators true vp lang _ 0 hnvrc]
    simp [String.append_assoc]
  | true =>
    rw [argsV_true_join margs vp lang _ _ hnvargs]
    rw [writeRight_col_indep rc.declarators true vp lang _ 0 hnvrc]
    simp [String.append_assoc]

/-- C9: the vertical-layout flag is purely formatting: for every function,
identifier, void-flag and dialect, the horizontal and the vertical run share
the same prefix (base type, left walk, identifier, opening parenthesis and
possible `void`), the same argument texts, and the same suffix (closing
parenthesis and remaining right walk); they differ only in the separator
joining the arguments — `", "` versus a comma, a line break and indentation
to the column where the opening parenthesis ended.  In particular the
grouping parentheses emitted are identical in both runs. -/
theorem c9_vertical_layout (f : Function) (ident : Option String) (vp : Bool)
    (lang : Language) :
    (∀ lv, write_func f lv vp lang = writeFuncText f lv (some f.name) vp lang)
    ∧ ∃ pre post argStrs align,
        argStrs.length = f.args.length
        ∧ writeFuncText f false ident vp lang =
            pre ++ (strJoinSep ", " argStrs ++ post)
        ∧ writeFuncText f true ident vp lang =
            pre ++ (strJoinSep ("," ++ "\n" ++ spacesStr align) argStrs ++ post) := by
  constructor
  · intro lv
    rfl
  · obtain ⟨margs, hm, hnvargs, hlen⟩ := buildFuncArgs_noVert_len f.args lang
    have hok := build_type_ok f.ret CDecl.new false lang rfl rfl rfl
    obtain ⟨rc, hrc⟩ := Option.isSome_iff_exists.mp hok
    have hnvrc : noVertDs rc.declarators = true := by
      have h2 := build_type_noVert f.ret CDecl.new false lang rc hrc (by rfl)
      rwa [noVertC_decomp] at h2
    refine ⟨writeBase ⟨rc.type_qualifers, rc.type_name, rc.type_generic_args,
        CDeclarator.Func margs false :: rc.declarators, rc.type_ctype⟩ ident lang 0
        ++ ("(" ++ (if margs.isEmpty && vp then "void" else "")),
      ")" ++ CDecl.writeRight rc.declarators true vp lang 0,
      argTexts margs vp lang,
      colStep (colStep 0 (writeBase ⟨rc.type_qualifers, rc.type_name,
        rc.type_generic_args, CDeclarator.Func margs false :: rc.declarators,
        rc.type_ctype⟩ ident lang 0))
        ("(" ++ (if margs.isEmpty && vp then "void" else "")),
      ?_, ?_, ?_⟩
    · simpa [argTexts] using congrArg List.length (rfl : margs = margs) |>.trans hlen
    · rw [writeFuncText_eq f ident vp lang false margs rc hm hrc hnvargs hnvrc]
      simp [String.append_assoc]
    · rw [writeFuncText_eq f ident vp lang true margs rc hm hrc hnvargs hnvrc]
      simp [String.append_assoc]
